import Mathlib

/-!
# MSP430 synthesizer: the three interrupt handlers of `main.c`

A shallow embedding of the interrupt-driven core of `main.c`:
`wdtIntervalHandler` (the periodic scheduler tick), `adcHandler` (the
conversion-complete handler) and `buttonHandler` (the mode-select edge
handler), together with the globals and the hardware registers they touch.

Conventions.
* `unsigned int` is 16 bits wide on the MSP430: every arithmetic result that is
  stored is reduced modulo `word = 2 ^ 16`.
* `notes` is a C array of exactly six cells.  An access outside `0 .. 5` is
  undefined behaviour in C, and so is a remainder by zero; the tick therefore
  lives in `Option`, and `none` stands for "an array access was out of bounds
  or the divisor of `%` was zero".
* The input port `P1IN` is an argument of the tick (one reading per tick), the
  conversion result `ADC10MEM` is an argument of `adcHandler`, and the
  interrupt flag register `P2IFG` is a field of the state that the hardware
  may set before `buttonHandler` runs.
-/

namespace Synth

/-! ## Constants of `main.c` (lines 4-18) and of the device header -/

/-- Half-period of the note E4 (`#define E4 1515`). -/
def E4 : Nat := 1515
/-- Half-period of the note G (`#define G 1276`). -/
def G : Nat := 1276
/-- Half-period of the note A (`#define A 1136`). -/
def A : Nat := 1136
/-- Half-period of the note B (`#define B 1012`). -/
def B : Nat := 1012
/-- Half-period of the note D (`#define D 852`). -/
def D : Nat := 852
/-- Half-period of the note E5 (`#define E5 759`). -/
def E5 : Nat := 759

/-- Bit mask of the mode-select button, `BIT1`. -/
def mode_select : Nat := 0x02
/-- Bit mask of the E4 key, `BIT2`. -/
def buttonE4 : Nat := 0x04
/-- Bit mask of the G key, `BIT3`. -/
def buttonG : Nat := 0x08
/-- Bit mask of the A key, `BIT4`. -/
def buttonA : Nat := 0x10
/-- Bit mask of the B key, `BIT5`. -/
def buttonB : Nat := 0x20
/-- Bit mask of the D key, `BIT6`. -/
def buttonD : Nat := 0x40
/-- Bit mask of the E5 key, `BIT7`. -/
def buttonE5 : Nat := 0x80

/-- Start-of-conversion bit of `ADC10CTL0` (device header: `ADC10SC = 0x001`). -/
def ADC10SC : Nat := 0x001

/-- Number of values of an `unsigned int` on the MSP430 (16 bits). -/
def word : Nat := 65536

/-- Unsigned 16-bit subtraction: the mathematical difference reduced modulo `2 ^ 16`. -/
def sub16 (a b : Nat) : Nat := (((a : Int) - (b : Int)) % 65536).toNat

/-! ## The array `notes[6]` -/

/-- The contents of `volatile unsigned int notes[6]`: exactly six cells. -/
abbrev NoteArray : Type := { l : List Nat // l.length = 6 }

/-- The array `{ 0 }` of the initialiser. -/
def NoteArray.zero : NoteArray := ⟨[0, 0, 0, 0, 0, 0], rfl⟩

/-- The read `notes[i]`; `none` when `i` is outside `0 .. 5`. -/
def NoteArray.read (a : NoteArray) (i : Nat) : Option Nat := a.val[i]?

/-- The write `notes[i] = v`; `none` when `i` is outside `0 .. 5`. -/
def NoteArray.write (a : NoteArray) (i v : Nat) : Option NoteArray :=
  if i < 6 then some ⟨a.val.set i v, by rw [List.length_set]; exact a.property⟩ else none

/-! ## The shared state -/

/-- The globals of `main.c` (lines 29-43) and the registers the handlers write. -/
structure State where
  /-- The array `notes[6]`. -/
  notes : NoteArray
  /-- Index of the next note played by the arpeggiator. -/
  currentNote : Nat
  /-- Number of keys found pressed by the last scan. -/
  numberOfNotes : Nat
  /-- Tempo of the arpeggiator. -/
  tempo : Nat
  /-- Countdown between two notes in arpeggiator mode. -/
  downCounter : Nat
  /-- Pitch-shift rate in glissando mode. -/
  rate : Nat
  /-- Current mode: 0 is glissando, 1 is arpeggiator. -/
  mode : Nat
  /-- Timer compare register: the half-period of the square wave. -/
  TA0CCR0 : Nat
  /-- Control register 0 of the converter. -/
  ADC10CTL0 : Nat
  /-- Interrupt flag register of port 2. -/
  P2IFG : Nat
  deriving DecidableEq

/-- The state when `main` goes to sleep: the initialisers of lines 29-43
(`numberOfNotes` has none and is zero as a static object), `TA0CCR0 = 0` from
`initializeTimer`, `ADC10CTL0 = SREF_0 | ADC10SHT_3 | ADC10ON | ADC10IE | ENC`
(`0x181A` with the device header's values) from `initializeAdc`, and the
mode-select flag cleared by `initializeButtons`. -/
def init : State :=
  { notes := NoteArray.zero, currentNote := 0, numberOfNotes := 0, tempo := 8,
    downCounter := 8, rate := 0, mode := 0, TA0CCR0 := 0, ADC10CTL0 := 0x181A, P2IFG := 0 }

/-! ## `wdtIntervalHandler` (lines 131-197) -/

/-- The loop `unsigned int i = 6; while (i != 0) { notes[--i] = 0; }`, started at `i`. -/
def clearNotes : Nat → NoteArray → Option NoteArray
  | 0, a => some a
  | i + 1, a => (a.write i 0).bind (clearNotes i)

/-- One key test of the scan,
`if (!(P1IN & mask)) { notes[numberOfNotes] = period; ++numberOfNotes; }`. -/
def scanKey (P1IN mask period : Nat) (s : State) : Option State :=
  if P1IN &&& mask = 0 then
    (s.notes.write s.numberOfNotes period).map fun a =>
      { s with notes := a, numberOfNotes := (s.numberOfNotes + 1) % word }
  else some s

/-- Lines 134-165: start a conversion, reset `numberOfNotes`, clear `notes`, and
test the six keys in the order E4, G, A, B, D, E5. -/
def rescan (s : State) (P1IN : Nat) : Option State := do
  let s := { s with ADC10CTL0 := s.ADC10CTL0 ||| ADC10SC }
  let s := { s with numberOfNotes := 0 }
  let a ← clearNotes 6 s.notes
  let s := { s with notes := a }
  let s ← scanKey P1IN buttonE4 E4 s
  let s ← scanKey P1IN buttonG G s
  let s ← scanKey P1IN buttonA A s
  let s ← scanKey P1IN buttonB B s
  let s ← scanKey P1IN buttonD D s
  scanKey P1IN buttonE5 E5 s

/-- The remainder `a % n` of two `unsigned int`s; `none` when the divisor is 0
(undefined behaviour in C). -/
def remU (a n : Nat) : Option Nat := if n = 0 then none else some (a % n)

/-- The value `notes[numberOfNotes - 1]` that glissando mode compares `TA0CCR0`
with; the index is computed in unsigned 16-bit arithmetic, so that it is 65535
(outside the array) when `numberOfNotes` is 0. -/
def glissTarget (s : State) : Option Nat := s.notes.read (sub16 s.numberOfNotes 1)

/-- Lines 167-195: the update of the output in glissando mode (`mode == 0`) and
in arpeggiator mode (`mode == 1`); any other value of `mode` does nothing. -/
def advance (s : State) : Option State :=
  if s.mode = 0 then
    if s.numberOfNotes ≠ 0 then
      (glissTarget s).map fun target =>
        if s.TA0CCR0 < target then { s with TA0CCR0 := (s.TA0CCR0 + s.rate) % word }
        else if s.TA0CCR0 > target then { s with TA0CCR0 := sub16 s.TA0CCR0 s.rate }
        else s
    else some s
  else if s.mode = 1 then
    let old := s.downCounter
    let s := { s with downCounter := sub16 old 1 }
    if old = 0 then
      let s := { s with downCounter := s.tempo }
      if s.numberOfNotes ≠ 0 then
        (s.notes.read s.currentNote).bind fun v =>
          (remU ((1 + s.currentNote) % word) s.numberOfNotes).map fun c =>
            { s with TA0CCR0 := v, currentNote := c }
      else some { s with TA0CCR0 := 0 }
    else some s
  else some s

/-- The periodic interrupt handler: one scheduler tick with port reading `P1IN`. -/
def wdtIntervalHandler (s : State) (P1IN : Nat) : Option State :=
  (rescan s P1IN).bind advance

/-! ## `adcHandler` (lines 203-207) and `buttonHandler` (lines 213-224) -/

/-- The conversion-complete handler, with `ADC10MEM` the conversion result. -/
def adcHandler (s : State) (ADC10MEM : Nat) : State :=
  { s with rate := (ADC10MEM / 64) % word, tempo := ((ADC10MEM / 10) + 12) % word }

/-- The port-2 edge handler.  `P2IFG = ~mode_select` stores the complement of the
16-bit constant, truncated to the 8-bit register. -/
def buttonHandler (s : State) : State :=
  if s.P2IFG &&& mode_select ≠ 0 then
    let s := if s.mode = 0 then { s with mode := 1 }
             else if s.mode = 1 then { s with mode := 0 }
             else s
    { s with P2IFG := (word - 1 - mode_select) % 256 }
  else s

/-! ## Runs of the system -/

/-- The state after the first `k` ticks, tick number `i` reading `inp i` from the port. -/
def ticks (inp : Nat → Nat) : Nat → State → Option State
  | 0, s => some s
  | k + 1, s => (ticks inp k s).bind fun s' => wdtIntervalHandler s' (inp k)

/-- States reachable from system start by ticks (any port reading), conversion
results of the 10-bit converter, and port-2 interrupts (any flag register). -/
inductive Reachable : State → Prop
  | start : Reachable init
  | tick (s s' : State) (P1IN : Nat) :
      Reachable s → wdtIntervalHandler s P1IN = some s' → Reachable s'
  | sample (s : State) (ADC10MEM : Nat) :
      Reachable s → ADC10MEM ≤ 1023 → Reachable (adcHandler s ADC10MEM)
  | edge (s : State) (flags : Nat) :
      Reachable s → Reachable (buttonHandler { s with P2IFG := flags })

/-! ## Vocabulary of the specification -/

/-- The note table in scan order: key mask and half-period of Key1 .. Key6. -/
def keyTable : List (Nat × Nat) :=
  [(buttonE4, E4), (buttonG, G), (buttonA, A), (buttonB, B), (buttonD, D), (buttonE5, E5)]

/-- The half-periods of the keys read as pressed (active low) in `P1IN`, in key order. -/
def heldPeriods (P1IN : Nat) : List Nat :=
  (keyTable.filter fun k => decide (P1IN &&& k.1 = 0)).map Prod.snd

/-- The contents of `notes` after a scan: the held periods followed by zeros. -/
def paddedNotes (P1IN : Nat) : List Nat :=
  heldPeriods P1IN ++ List.replicate (6 - (heldPeriods P1IN).length) 0

/-- The array holding the held periods followed by zeros. -/
def scannedNotes (P1IN : Nat) : NoteArray :=
  ⟨paddedNotes P1IN, by
    have h : (heldPeriods P1IN).length ≤ 6 := by
      unfold heldPeriods
      rw [List.length_map]
      exact (List.length_filter_le _ _).trans (by decide)
    simp only [paddedNotes, List.length_append, List.length_replicate]
    omega⟩

/-- The state in which the scan of lines 134-165 ends. -/
def scanned (s : State) (P1IN : Nat) : State :=
  { s with ADC10CTL0 := s.ADC10CTL0 ||| ADC10SC,
           numberOfNotes := (heldPeriods P1IN).length,
           notes := scannedNotes P1IN }

/-- Tick number `k` (counted from 0) of a run is a note-advance tick: the state
it starts from is in arpeggiator mode with `downCounter == 0`, so the branch of
lines 185-193 that rewrites `TA0CCR0` is taken. -/
def advanceTick (inp : Nat → Nat) (s : State) (k : Nat) : Bool :=
  match ticks inp k s with
  | some x => decide (x.mode = 1 ∧ x.downCounter = 0)
  | none => false

/-- The output period after the first `k` ticks of a run. -/
def outputAfter (inp : Nat → Nat) (s : State) (k : Nat) : Option Nat :=
  (ticks inp k s).map fun x => x.TA0CCR0

/-- A demonstration state: system start with arpeggiator mode selected, the
countdown expired, a non-zero rate and a non-zero output period. -/
def demo : State :=
  { init with mode := 1, downCounter := 0, rate := 5, TA0CCR0 := 1000 }

/-- The state after system start and one press of the mode-select button:
arpeggiator mode with `tempo = 8`, `downCounter = 8` and `currentNote = 0`. -/
def arpStart : State := buttonHandler { init with P2IFG := mode_select }

/-- The state nine ticks after `arpStart` with E4, G and A held: the first
advance has just written the period of E4 and reloaded the countdown. -/
def sounding : State :=
  { arpStart with notes := ⟨[1515, 1276, 1136, 0, 0, 0], rfl⟩, numberOfNotes := 3,
                  currentNote := 1, TA0CCR0 := 1515, ADC10CTL0 := 0x181B }

/-- The port reading with the keys E4, G and A held (bits 2, 3, 4 low). -/
def threeKeys : Nat := 0xE3

/-- The port reading with the keys E4 and A held (bits 2 and 4 low). -/
def twoKeys : Nat := 0xEB

/-- The port reading with no key held. -/
def noKeys : Nat := 0xFF

/-- The port reading with only the key E4 held (bit 2 low). -/
def oneKey : Nat := 0xFB

/-- A run that holds E4, G and A for the first 18 ticks and only E4 afterwards. -/
def staleRun (k : Nat) : Nat := if k < 18 then threeKeys else oneKey

/-- The distance `|T - p|` between the target period and the output period. -/
def gap (T p : Nat) : Nat := (T - p) + (p - T)

example : heldPeriods 0xFF = [] := by decide
example : heldPeriods 0x03 = [1515, 1276, 1136, 1012, 852, 759] := by decide
example : (rescan init 0xE3).map (fun s => s.notes.val) = some [1515, 1276, 1136, 0, 0, 0] := by
  decide

/-! ## The scan -/

theorem heldPeriods_length_le (p : Nat) : (heldPeriods p).length ≤ 6 := by
  unfold heldPeriods
  rw [List.length_map]
  exact (List.length_filter_le _ _).trans (by decide)

theorem paddedNotes_length (p : Nat) : (paddedNotes p).length = 6 := by
  have h := heldPeriods_length_le p
  simp only [paddedNotes, List.length_append, List.length_replicate]
  omega

theorem sub16_one (d : Nat) (h0 : d ≠ 0) (hd : d < word) : sub16 d 1 = d - 1 := by
  unfold sub16
  unfold word at hd
  omega

/-- The index `numberOfNotes - 1` after a scan that found a key held. -/
theorem lastIndex_scanned (p : Nat) (h : (heldPeriods p).length ≠ 0) :
    sub16 (heldPeriods p).length 1 = (heldPeriods p).length - 1 := by
  have hlen := heldPeriods_length_le p
  exact sub16_one _ h (by unfold word; omega)

theorem clearNotes_six (a : NoteArray) : clearNotes 6 a = some NoteArray.zero := by
  obtain ⟨l, hl⟩ := a
  match l, hl with
  | [_, _, _, _, _, _], _ => rfl

theorem rescan_eq (s : State) (p : Nat) : rescan s p = some (scanned s p) := by
  have hc := clearNotes_six s.notes
  simp only [rescan, hc, bind, Option.bind]
  by_cases h1 : p &&& buttonE4 = 0 <;> by_cases h2 : p &&& buttonG = 0 <;>
  by_cases h3 : p &&& buttonA = 0 <;> by_cases h4 : p &&& buttonB = 0 <;>
  by_cases h5 : p &&& buttonD = 0 <;> by_cases h6 : p &&& buttonE5 = 0 <;>
  simp [scanKey, h1, h2, h3, h4, h5, h6, NoteArray.write, NoteArray.zero, scanned, scannedNotes,
    paddedNotes, heldPeriods, keyTable, word]

theorem wdt_eq_advance (s : State) (p : Nat) :
    wdtIntervalHandler s p = advance (scanned s p) := by
  simp [wdtIntervalHandler, rescan_eq]

/-- The fields that `advance` never writes. -/
theorem advance_frame (m s' : State) (h : advance m = some s') :
    s'.notes = m.notes ∧ s'.numberOfNotes = m.numberOfNotes ∧ s'.mode = m.mode ∧
      s'.rate = m.rate ∧ s'.tempo = m.tempo ∧ s'.ADC10CTL0 = m.ADC10CTL0 ∧
      s'.P2IFG = m.P2IFG := by
  simp only [advance] at h
  split_ifs at h
  all_goals first
    | (cases h; simp)
    | (obtain ⟨v, -, rfl⟩ := Option.map_eq_some'.mp h; split_ifs <;> simp)
    | (obtain ⟨v, -, h2⟩ := Option.bind_eq_some.mp h
       obtain ⟨c, -, rfl⟩ := Option.map_eq_some'.mp h2
       simp)

theorem read_scanned (p i : Nat) : (scannedNotes p).read i = (paddedNotes p)[i]? := rfl

theorem advance_none_iff (m : State) :
    advance m = none ↔
      (m.mode = 0 ∧ m.numberOfNotes ≠ 0 ∧ glissTarget m = none) ∨
      (m.mode = 1 ∧ m.downCounter = 0 ∧ m.numberOfNotes ≠ 0 ∧ m.notes.read m.currentNote = none) := by
  simp only [advance]
  split_ifs with h1 h2 h3 h4 h5
  · simp_all
  · simp_all
  · cases hr : m.notes.read m.currentNote <;> simp_all [remU]
  · simp_all
  · simp_all
  · simp_all

/-- C1. For every prior state and every port reading, the scan of
`wdtIntervalHandler` ends with `numberOfNotes` equal to the number of keys read
as pressed and with `notes` holding exactly the half-periods of those keys in
key order Key1..Key6 (followed by zeros); the rest of the handler keeps both,
so they hold after the call; nothing of this depends on the previous `notes`
or `numberOfNotes`.  The call itself completes except when arpeggiator mode
reads `notes[currentNote]` outside the array. -/
theorem C1_active_notes_after_tick (s : State) (P1IN : Nat) :
    (∃ m, rescan s P1IN = some m ∧ m.numberOfNotes = (heldPeriods P1IN).length ∧
        m.notes.val.take m.numberOfNotes = heldPeriods P1IN ∧
        m.notes.val =
          heldPeriods P1IN ++ List.replicate (6 - (heldPeriods P1IN).length) 0) ∧
    (∀ s', wdtIntervalHandler s P1IN = some s' →
        s'.numberOfNotes = (heldPeriods P1IN).length ∧
        s'.notes.val.take s'.numberOfNotes = heldPeriods P1IN ∧
        s'.notes.val =
          heldPeriods P1IN ++ List.replicate (6 - (heldPeriods P1IN).length) 0) ∧
    (wdtIntervalHandler s P1IN = none ↔
        s.mode = 1 ∧ s.downCounter = 0 ∧ heldPeriods P1IN ≠ [] ∧ 6 ≤ s.currentNote) := by
  refine ⟨⟨scanned s P1IN, rescan_eq s P1IN, rfl, ?_, rfl⟩, ?_, ?_⟩
  · simp [scanned, scannedNotes, paddedNotes]
  · intro s' h
    rw [wdt_eq_advance] at h
    obtain ⟨hn, hk, -⟩ := advance_frame _ _ h
    rw [hn, hk]
    simp [scanned, scannedNotes, paddedNotes]
  · have hlen := heldPeriods_length_le P1IN
    have hpad := paddedNotes_length P1IN
    rw [wdt_eq_advance, advance_none_iff]
    simp only [glissTarget, scanned, read_scanned, List.getElem?_eq_none_iff, hpad,
      List.length_eq_zero, ne_eq]
    constructor
    · rintro (⟨-, h1, h2⟩ | h)
      · have hne : (heldPeriods P1IN).length ≠ 0 := by simpa using h1
        rw [lastIndex_scanned P1IN hne] at h2
        omega
      · exact h
    · intro h
      exact Or.inr h

/-! ## Single steps -/

theorem glissTarget_scanned (s : State) (p : Nat) (h : heldPeriods p ≠ []) :
    glissTarget (scanned s p) = some ((heldPeriods p).getLast h) := by
  have hpos : 0 < (heldPeriods p).length := List.length_pos.mpr h
  simp only [glissTarget, scanned, read_scanned, paddedNotes]
  rw [lastIndex_scanned p (by omega), List.getElem?_append_left (by omega),
    List.getLast_eq_getElem, List.getElem?_eq_getElem (by omega)]

theorem read_scanned_held (p i : Nat) (h : i < (heldPeriods p).length) :
    (scannedNotes p).read i = (heldPeriods p)[i]? := by
  rw [read_scanned, paddedNotes, List.getElem?_append_left h]

/-- C2. Glissando single step: with `mode = 0` and at least one key held, a
tick compares `TA0CCR0` with `T`, the period of the last held key in scan
order, and stores `TA0CCR0 + rate` (16-bit) if it was below `T`,
`TA0CCR0 - rate` (16-bit) if it was above `T`, and leaves it unchanged if it
equalled `T`; the result is never clamped to `T`. -/
theorem C2_glissando_single_step (s : State) (P1IN : Nat) (hmode : s.mode = 0)
    (hheld : heldPeriods P1IN ≠ []) :
    ∃ s', wdtIntervalHandler s P1IN = some s' ∧
      s'.TA0CCR0 =
        if s.TA0CCR0 < (heldPeriods P1IN).getLast hheld then (s.TA0CCR0 + s.rate) % 65536
        else if s.TA0CCR0 > (heldPeriods P1IN).getLast hheld then
          (((s.TA0CCR0 : Int) - (s.rate : Int)) % 65536).toNat
        else s.TA0CCR0 := by
  have hlen : (heldPeriods P1IN).length ≠ 0 := by
    simpa [List.length_eq_zero] using hheld
  have hm : (scanned s P1IN).mode = 0 := hmode
  have hn : (scanned s P1IN).numberOfNotes ≠ 0 := hlen
  rw [wdt_eq_advance]
  simp only [advance, hm, hn, glissTarget_scanned s P1IN hheld, if_true, ne_eq, not_false_eq_true,
    Option.map_some']
  refine ⟨_, rfl, ?_⟩
  have hc : (scanned s P1IN).TA0CCR0 = s.TA0CCR0 := rfl
  have hr : (scanned s P1IN).rate = s.rate := rfl
  simp only [hc, hr]
  split_ifs
  · simp [word]
  · simp [sub16]
  · exact hc

theorem C2_glissando_single_step_witness :
    ∃ s', wdtIntervalHandler { demo with mode := 0 } 0xE3 = some s' ∧ s'.TA0CCR0 = 1005 := by
  obtain ⟨s', h, hv⟩ := C2_glissando_single_step { demo with mode := 0 } 0xE3 rfl (by decide)
  exact ⟨s', h, hv.trans (by decide)⟩

/-- C3. Arpeggiator single step: with `mode = 1`, a tick whose `downCounter`
was not 0 decrements it by 1 and leaves `TA0CCR0` and `currentNote` unchanged;
a tick whose `downCounter` was 0 sets it to `tempo`, and then, with
`currentNote` below the number `n` of held keys, stores the `currentNote`-th
held period in `TA0CCR0` and sets `currentNote` to `(currentNote + 1) mod n`,
while with no held key it stores 0 in `TA0CCR0` and leaves `currentNote`
unchanged. -/
theorem C3_arpeggiator_single_step (s : State) (P1IN : Nat) (hmode : s.mode = 1)
    (hdc : s.downCounter < 65536) :
    (s.downCounter ≠ 0 →
      ∃ s', wdtIntervalHandler s P1IN = some s' ∧ s'.downCounter = s.downCounter - 1 ∧
        s'.TA0CCR0 = s.TA0CCR0 ∧ s'.currentNote = s.currentNote) ∧
    (s.downCounter = 0 → s.currentNote < (heldPeriods P1IN).length →
      ∃ s', wdtIntervalHandler s P1IN = some s' ∧ s'.downCounter = s.tempo ∧
        (heldPeriods P1IN)[s.currentNote]? = some s'.TA0CCR0 ∧
        s'.currentNote = (s.currentNote + 1) % (heldPeriods P1IN).length) ∧
    (s.downCounter = 0 → heldPeriods P1IN = [] →
      ∃ s', wdtIntervalHandler s P1IN = some s' ∧ s'.downCounter = s.tempo ∧
        s'.TA0CCR0 = 0 ∧ s'.currentNote = s.currentNote) := by
  have hm0 : (scanned s P1IN).mode ≠ 0 := by
    show s.mode ≠ 0
    omega
  have hm1 : (scanned s P1IN).mode = 1 := hmode
  have hd : (scanned s P1IN).downCounter = s.downCounter := rfl
  have hlen := heldPeriods_length_le P1IN
  refine ⟨fun h0 => ?_, fun h0 hcur => ?_, fun h0 hnil => ?_⟩
  · rw [wdt_eq_advance]
    simp only [advance, hm0, hm1, hd, h0, if_false, if_true]
    exact ⟨_, rfl, sub16_one _ h0 hdc, rfl, rfl⟩
  · have hn : (scanned s P1IN).numberOfNotes ≠ 0 := by
      show (heldPeriods P1IN).length ≠ 0
      omega
    have hrd : (scanned s P1IN).notes.read (scanned s P1IN).currentNote =
        some ((heldPeriods P1IN)[s.currentNote]) := by
      show (scannedNotes P1IN).read s.currentNote = _
      rw [read_scanned_held _ _ hcur, List.getElem?_eq_getElem hcur]
    rw [wdt_eq_advance]
    simp only [advance, remU, hm0, hm1, hd, h0, hn, hrd, if_false, if_true, ne_eq,
      not_false_eq_true, Option.some_bind, Option.map_some']
    refine ⟨_, rfl, rfl, (List.getElem?_eq_getElem hcur), ?_⟩
    show (1 + s.currentNote) % word % (heldPeriods P1IN).length = _
    have hw : (1 + s.currentNote) % word = 1 + s.currentNote :=
      Nat.mod_eq_of_lt (by unfold word; omega)
    rw [hw, Nat.add_comm]
  · have hn : (scanned s P1IN).numberOfNotes = 0 := by
      show (heldPeriods P1IN).length = 0
      rw [hnil]
      rfl
    rw [wdt_eq_advance]
    simp only [advance, hm0, hm1, hd, h0, hn, if_false, if_true, ne_eq, not_true_eq_false]
    exact ⟨_, rfl, rfl, rfl, rfl⟩

theorem C3_arpeggiator_single_step_witness :
    ∃ s', wdtIntervalHandler demo 0xE3 = some s' ∧ s'.downCounter = 8 ∧
      s'.TA0CCR0 = 1515 ∧ s'.currentNote = 1 := by
  obtain ⟨s', h, hd, hv, hc⟩ :=
    (C3_arpeggiator_single_step demo 0xE3 rfl (by decide)).2.1 rfl (by decide)
  refine ⟨s', h, hd, ?_, hc⟩
  have h2 : (heldPeriods 0xE3)[demo.currentNote]? = some 1515 := by decide
  rw [h2] at hv
  exact (Option.some.inj hv).symm

/-- C4. For every raw sample `0 ≤ ADC10MEM ≤ 1023`, `adcHandler` sets
`rate = ADC10MEM / 64` and `tempo = ADC10MEM / 10 + 12` (integer division), so
that `rate ≤ 15` and `12 ≤ tempo ≤ 114`; sample 0 gives rate 0 and tempo 12,
sample 1023 gives rate 15 and tempo 114. -/
theorem C4_sampler_rate_tempo (s : State) (ADC10MEM : Nat) (h : ADC10MEM ≤ 1023) :
    ((adcHandler s ADC10MEM).rate = ADC10MEM / 64 ∧
      (adcHandler s ADC10MEM).tempo = ADC10MEM / 10 + 12 ∧
      (adcHandler s ADC10MEM).rate ≤ 15 ∧
      12 ≤ (adcHandler s ADC10MEM).tempo ∧ (adcHandler s ADC10MEM).tempo ≤ 114) ∧
    ((adcHandler s 0).rate = 0 ∧ (adcHandler s 0).tempo = 12) ∧
    ((adcHandler s 1023).rate = 15 ∧ (adcHandler s 1023).tempo = 114) := by
  have hr : (adcHandler s ADC10MEM).rate = (ADC10MEM / 64) % 65536 := rfl
  have ht : (adcHandler s ADC10MEM).tempo = (ADC10MEM / 10 + 12) % 65536 := rfl
  refine ⟨?_, ⟨rfl, rfl⟩, ⟨rfl, rfl⟩⟩
  have h1 : ADC10MEM / 64 ≤ 15 := by omega
  have h2 : ADC10MEM / 10 ≤ 102 := by omega
  rw [hr, ht, Nat.mod_eq_of_lt (by omega), Nat.mod_eq_of_lt (by omega)]
  omega

theorem C4_sampler_rate_tempo_witness :
    (adcHandler init 512).rate = 8 ∧ (adcHandler init 512).tempo = 63 := by
  obtain ⟨⟨hr, ht, -⟩, -⟩ := C4_sampler_rate_tempo init 512 (by decide)
  exact ⟨hr, ht⟩

/-! ## The mode toggle -/

/-- The fields that a tick never writes. -/
theorem wdt_frame (s s' : State) (p : Nat) (h : wdtIntervalHandler s p = some s') :
    s'.mode = s.mode ∧ s'.rate = s.rate ∧ s'.tempo = s.tempo ∧ s'.P2IFG = s.P2IFG := by
  rw [wdt_eq_advance] at h
  obtain ⟨-, -, hm, hr, ht, -, hf⟩ := advance_frame _ _ h
  exact ⟨hm, hr, ht, hf⟩

theorem buttonHandler_mode (s : State) (hf : s.P2IFG &&& mode_select ≠ 0) :
    (buttonHandler s).mode = if s.mode = 0 then 1 else if s.mode = 1 then 0 else s.mode := by
  simp only [buttonHandler, hf, ne_eq, not_false_eq_true, if_true]
  split_ifs <;> rfl

theorem buttonHandler_mode_idle (s : State) (hf : s.P2IFG &&& mode_select = 0) :
    buttonHandler s = s := by
  simp [buttonHandler, hf]

/-- C5. The mode is a two-state machine started in glissando (`mode = 0`):
a run of `buttonHandler` with the mode-select flag set turns glissando into
arpeggiator and arpeggiator into glissando, two such runs in a row restore
the mode, and in every state reachable from system start `mode` is 0 or 1. -/
theorem C5_mode_two_state_machine :
    init.mode = 0 ∧
    (∀ s : State, s.P2IFG &&& mode_select ≠ 0 →
      (s.mode = 0 → (buttonHandler s).mode = 1) ∧
      (s.mode = 1 → (buttonHandler s).mode = 0)) ∧
    (∀ (s : State) (f g : Nat), f &&& mode_select ≠ 0 → g &&& mode_select ≠ 0 →
      (s.mode = 0 ∨ s.mode = 1) →
      (buttonHandler { buttonHandler { s with P2IFG := f } with P2IFG := g }).mode = s.mode) ∧
    (∀ s : State, Reachable s → s.mode = 0 ∨ s.mode = 1) := by
  refine ⟨rfl, fun s hf => ?_, fun s f g hf hg hm => ?_, fun s hs => ?_⟩
  · rw [buttonHandler_mode s hf]
    constructor <;> intro h <;> simp [h]
  · rw [buttonHandler_mode _ hg]
    show (if (buttonHandler { s with P2IFG := f }).mode = 0 then 1
      else if (buttonHandler { s with P2IFG := f }).mode = 1 then 0
      else (buttonHandler { s with P2IFG := f }).mode) = s.mode
    rw [buttonHandler_mode _ hf]
    rcases hm with h | h <;> simp [h]
  · induction hs with
    | start => exact Or.inl rfl
    | tick s s' p _ h ih =>
      rw [(wdt_frame s s' p h).1]
      exact ih
    | sample s m _ _ ih => exact ih
    | edge s f _ ih =>
      by_cases hf : f &&& mode_select = 0
      · rw [buttonHandler_mode_idle _ hf]
        exact ih
      · rw [buttonHandler_mode _ hf]
        rcases ih with h | h
        · right
          simp [h]
        · left
          simp [h]

/-! ## The tick, branch by branch -/

theorem wdt_gliss_idle (s : State) (p : Nat) (hmode : s.mode = 0) (h : heldPeriods p = []) :
    wdtIntervalHandler s p = some (scanned s p) := by
  have hm : (scanned s p).mode = 0 := hmode
  have hn : (scanned s p).numberOfNotes = 0 := by
    show (heldPeriods p).length = 0
    rw [h]
    rfl
  rw [wdt_eq_advance]
  simp only [advance, hm, hn, if_true, ne_eq, not_true_eq_false, if_false]

theorem wdt_gliss_held (s : State) (p T : Nat) (hmode : s.mode = 0)
    (hT : (heldPeriods p).getLast? = some T) :
    wdtIntervalHandler s p =
      some (if s.TA0CCR0 < T then { scanned s p with TA0CCR0 := (s.TA0CCR0 + s.rate) % word }
        else if s.TA0CCR0 > T then { scanned s p with TA0CCR0 := sub16 s.TA0CCR0 s.rate }
        else scanned s p) := by
  have hheld : heldPeriods p ≠ [] := by
    intro h
    rw [h] at hT
    exact Option.noConfusion hT
  have hlast : (heldPeriods p).getLast hheld = T := by
    rw [List.getLast?_eq_getLast _ hheld] at hT
    exact Option.some.inj hT
  have hm : (scanned s p).mode = 0 := hmode
  have hn : (scanned s p).numberOfNotes ≠ 0 := by
    show (heldPeriods p).length ≠ 0
    simpa [List.length_eq_zero] using hheld
  rw [wdt_eq_advance]
  simp only [advance, hm, hn, glissTarget_scanned s p hheld, hlast, if_true, ne_eq,
    not_false_eq_true, Option.map_some']
  rfl

theorem wdt_arp_wait (s : State) (p : Nat) (hmode : s.mode = 1) (h0 : s.downCounter ≠ 0) :
    wdtIntervalHandler s p = some { scanned s p with downCounter := sub16 s.downCounter 1 } := by
  have hm0 : (scanned s p).mode ≠ 0 := by
    show s.mode ≠ 0
    omega
  have hm1 : (scanned s p).mode = 1 := hmode
  have hd : (scanned s p).downCounter = s.downCounter := rfl
  have h10 : ¬ (1 : Nat) = 0 := by decide
  rw [wdt_eq_advance]
  simp only [advance, hm0, hm1, hd, h0, h10, if_false, if_true]

theorem wdt_arp_fire (s : State) (p v : Nat) (hmode : s.mode = 1) (h0 : s.downCounter = 0)
    (hv : (heldPeriods p)[s.currentNote]? = some v) :
    wdtIntervalHandler s p =
      some { scanned s p with
        downCounter := s.tempo, TA0CCR0 := v,
        currentNote := ((1 + s.currentNote) % word) % (heldPeriods p).length } := by
  have hcur : s.currentNote < (heldPeriods p).length := by
    by_contra hge
    rw [List.getElem?_eq_none (by omega)] at hv
    exact Option.noConfusion hv
  have hm0 : (scanned s p).mode ≠ 0 := by
    show s.mode ≠ 0
    omega
  have hm1 : (scanned s p).mode = 1 := hmode
  have hd : (scanned s p).downCounter = s.downCounter := rfl
  have hn : (scanned s p).numberOfNotes ≠ 0 := by
    show (heldPeriods p).length ≠ 0
    omega
  have hrd : (scanned s p).notes.read (scanned s p).currentNote = some v := by
    show (scannedNotes p).read s.currentNote = _
    rw [read_scanned_held _ _ hcur, hv]
  rw [wdt_eq_advance]
  simp only [advance, remU, hm0, hm1, hd, h0, hn, hrd, if_false, if_true, ne_eq,
    not_false_eq_true, Option.some_bind, Option.map_some']
  rfl

theorem wdt_arp_silent (s : State) (p : Nat) (hmode : s.mode = 1) (h0 : s.downCounter = 0)
    (h : heldPeriods p = []) :
    wdtIntervalHandler s p = some { scanned s p with downCounter := s.tempo, TA0CCR0 := 0 } := by
  have hm0 : (scanned s p).mode ≠ 0 := by
    show s.mode ≠ 0
    omega
  have hm1 : (scanned s p).mode = 1 := hmode
  have hd : (scanned s p).downCounter = s.downCounter := rfl
  have hn : (scanned s p).numberOfNotes = 0 := by
    show (heldPeriods p).length = 0
    rw [h]
    rfl
  have h10 : ¬ (1 : Nat) = 0 := by decide
  rw [wdt_eq_advance]
  simp only [advance, hm0, hm1, hd, h0, h10, hn, if_false, if_true, ne_eq, not_true_eq_false]
  rfl

theorem ticks_succ (inp : Nat → Nat) (k : Nat) (s m : State) (h : ticks inp k s = some m) :
    ticks inp (k + 1) s = wdtIntervalHandler m (inp k) := by
  simp [ticks, h]

/-! ## The glissando target -/

theorem heldPeriods_pairwise (p : Nat) : (heldPeriods p).Pairwise (fun a b => b ≤ a) := by
  unfold heldPeriods
  rw [List.pairwise_map]
  apply List.Pairwise.filter
  simp [keyTable, E4, G, A, B, D, E5]

theorem getLast_le_of_pairwise (l : List Nat) (h : l ≠ [])
    (hp : l.Pairwise (fun a b => b ≤ a)) : ∀ x ∈ l, l.getLast h ≤ x := by
  induction l with
  | nil => exact absurd rfl h
  | cons a t ih =>
    intro x hx
    rw [List.pairwise_cons] at hp
    by_cases ht : t = []
    · subst ht
      simp only [List.mem_singleton] at hx
      simp [hx]
    · rw [List.getLast_cons ht]
      rcases List.mem_cons.mp hx with rfl | hx
      · exact hp.1 _ (List.getLast_mem ht)
      · exact ih ht hp.2 x hx

/-- C6. In glissando mode the pitch bends toward the highest held note: for
every non-empty set of held keys, the value `T = notes[numberOfNotes - 1]` read
after the scan is a held half-period and is the minimum of the held
half-periods, that is the highest held pitch; and in glissando mode
(`mode = 0`) the tick compares `TA0CCR0` with this `T` and moves it toward
`T`: it stores `TA0CCR0 + rate` (16-bit) when `TA0CCR0` is below `T`,
`TA0CCR0 - rate` (16-bit) when it is above `T`, and leaves it alone when it
equals `T`. -/
theorem C6_glissando_target_is_highest_note (s : State) (P1IN : Nat)
    (hheld : heldPeriods P1IN ≠ []) :
    ∃ m T, rescan s P1IN = some m ∧ wdtIntervalHandler s P1IN = advance m ∧
      glissTarget m = some T ∧ T ∈ heldPeriods P1IN ∧ (∀ x ∈ heldPeriods P1IN, T ≤ x) ∧
      (s.mode = 0 →
        ∃ s', wdtIntervalHandler s P1IN = some s' ∧
          s'.TA0CCR0 =
            if s.TA0CCR0 < T then (s.TA0CCR0 + s.rate) % 65536
            else if s.TA0CCR0 > T then (((s.TA0CCR0 : Int) - (s.rate : Int)) % 65536).toNat
            else s.TA0CCR0) := by
  refine ⟨scanned s P1IN, (heldPeriods P1IN).getLast hheld, rescan_eq s P1IN,
    wdt_eq_advance s P1IN, glissTarget_scanned s P1IN hheld, List.getLast_mem hheld,
    getLast_le_of_pairwise _ hheld (heldPeriods_pairwise P1IN), fun hmode => ?_⟩
  rw [wdt_gliss_held s P1IN _ hmode (List.getLast?_eq_getLast _ hheld)]
  refine ⟨_, rfl, ?_⟩
  split_ifs <;> rfl

theorem C6_glissando_target_is_highest_note_witness :
    heldPeriods twoKeys = [1515, 1136] ∧
    ∃ s', wdtIntervalHandler { demo with mode := 0, TA0CCR0 := 1300 } twoKeys = some s' ∧
      s'.TA0CCR0 = 1295 := by
  obtain ⟨m, T, hm, -, hT, -, -, hstep⟩ :=
    C6_glissando_target_is_highest_note { demo with mode := 0, TA0CCR0 := 1300 } twoKeys
      (by decide)
  rw [rescan_eq] at hm
  cases hm
  have h2 : glissTarget (scanned { demo with mode := 0, TA0CCR0 := 1300 } twoKeys) =
      some 1136 := by decide
  rw [h2] at hT
  cases hT
  obtain ⟨s', hs', hv⟩ := hstep rfl
  exact ⟨by decide, s', hs', hv.trans (by decide)⟩

/-! ## Runs in arpeggiator mode -/

theorem step_wait (inp : Nat → Nat) (n : Nat) (s m : State) (h : ticks inp n s = some m)
    (hmode : m.mode = 1) (h0 : m.downCounter ≠ 0) (hw : m.downCounter < word) :
    ∃ m', ticks inp (n + 1) s = some m' ∧ m'.mode = 1 ∧ m'.tempo = m.tempo ∧
      m'.downCounter = m.downCounter - 1 ∧ m'.currentNote = m.currentNote ∧
      m'.TA0CCR0 = m.TA0CCR0 := by
  rw [ticks_succ inp n s m h, wdt_arp_wait m _ hmode h0]
  exact ⟨_, rfl, hmode, rfl, sub16_one _ h0 hw, rfl, rfl⟩

theorem step_fire (inp : Nat → Nat) (n v : Nat) (s m : State) (h : ticks inp n s = some m)
    (hmode : m.mode = 1) (h0 : m.downCounter = 0)
    (hv : (heldPeriods (inp n))[m.currentNote]? = some v) :
    ∃ m', ticks inp (n + 1) s = some m' ∧ m'.mode = 1 ∧ m'.tempo = m.tempo ∧
      m'.downCounter = m.tempo ∧
      m'.currentNote = ((1 + m.currentNote) % word) % (heldPeriods (inp n)).length ∧
      m'.TA0CCR0 = v := by
  rw [ticks_succ inp n s m h, wdt_arp_fire m _ v hmode h0 hv]
  exact ⟨_, rfl, hmode, rfl, rfl, rfl, rfl⟩

theorem step_silent (inp : Nat → Nat) (n : Nat) (s m : State) (h : ticks inp n s = some m)
    (hmode : m.mode = 1) (h0 : m.downCounter = 0) (hno : heldPeriods (inp n) = []) :
    ∃ m', ticks inp (n + 1) s = some m' ∧ m'.mode = 1 ∧ m'.tempo = m.tempo ∧
      m'.downCounter = m.tempo ∧ m'.currentNote = m.currentNote ∧ m'.TA0CCR0 = 0 := by
  rw [ticks_succ inp n s m h, wdt_arp_silent m _ hmode h0 hno]
  exact ⟨_, rfl, hmode, rfl, rfl, rfl, rfl⟩

/-- While the countdown runs, arpeggiator mode only decrements it. -/
theorem arp_countdown (inp : Nat → Nat) (s m : State) (n : Nat) (h : ticks inp n s = some m)
    (hmode : m.mode = 1) (hw : m.downCounter < 65536) (k : Nat) (hk : k ≤ m.downCounter) :
    ∃ m', ticks inp (n + k) s = some m' ∧ m'.mode = 1 ∧ m'.tempo = m.tempo ∧
      m'.downCounter = m.downCounter - k ∧ m'.currentNote = m.currentNote ∧
      m'.TA0CCR0 = m.TA0CCR0 := by
  have hwd : word = 65536 := rfl
  induction k with
  | zero => exact ⟨m, h, hmode, rfl, rfl, rfl, rfl⟩
  | succ k ih =>
    obtain ⟨m1, hm, h1, h2, h3, h4, h5⟩ := ih (by omega)
    obtain ⟨m', hm', g1, g2, g3, g4, g5⟩ :=
      step_wait inp (n + k) s m1 hm h1 (by omega) (by omega)
    exact ⟨m', hm', g1, g2.trans h2, by omega, g4.trans h4, g5.trans h5⟩

/-- With three keys held, the state right after the advance number `j`. -/
theorem arp_three_fire (inp : Nat → Nat) (s : State) (t : Nat) (H : List Nat)
    (hmode : s.mode = 1) (htempo : s.tempo = t) (ht : t < 65536) (hcur : s.currentNote < 3)
    (hd : s.downCounter ≤ t) (hH : ∀ i, heldPeriods (inp i) = H) (hlen : H.length = 3)
    (j : Nat) :
    ∃ m, ticks inp (s.downCounter + 1 + j * (t + 1)) s = some m ∧ m.mode = 1 ∧
      m.tempo = t ∧ m.downCounter = t ∧ m.currentNote = (s.currentNote + j + 1) % 3 ∧
      H[(s.currentNote + j) % 3]? = some m.TA0CCR0 := by
  have hwd : word = 65536 := rfl
  have hex : ∀ i, i < 3 → ∃ v, H[i]? = some v := fun i hi =>
    ⟨H[i], List.getElem?_eq_getElem (by omega)⟩
  induction j with
  | zero =>
    obtain ⟨m, hm, h1, h2, h3, h4, -⟩ :=
      arp_countdown inp s s 0 rfl hmode (by omega) s.downCounter (Nat.le_refl _)
    rw [Nat.zero_add] at hm
    obtain ⟨v, hv⟩ := hex s.currentNote hcur
    have hv' : (heldPeriods (inp s.downCounter))[m.currentNote]? = some v := by
      rw [hH, h4, hv]
    obtain ⟨m', hm', g1, g2, g3, g4, g5⟩ :=
      step_fire inp s.downCounter v s m hm h1 (by omega) hv'
    refine ⟨m', by simpa using hm', g1, by omega, by omega, ?_, ?_⟩
    · rw [g4, hH, hlen, h4, Nat.mod_eq_of_lt (by omega : 1 + s.currentNote < word)]
      omega
    · rw [g5, Nat.add_zero, Nat.mod_eq_of_lt hcur, hv]
  | succ j ih =>
    obtain ⟨m0, hm0, e1, e2, e3, e4, -⟩ := ih
    obtain ⟨m, hm, h1, h2, h3, h4, -⟩ :=
      arp_countdown inp s m0 _ hm0 e1 (by omega) t (by omega)
    have hc3 : (s.currentNote + j + 1) % 3 < 3 := Nat.mod_lt _ (by decide)
    obtain ⟨v, hv⟩ := hex _ hc3
    have hv' : (heldPeriods (inp (s.downCounter + 1 + j * (t + 1) + t)))[m.currentNote]? =
        some v := by
      rw [hH, h4, e4, hv]
    obtain ⟨m', hm', g1, g2, g3, g4, g5⟩ := step_fire inp _ v s m hm h1 (by omega) hv'
    have hidx : s.downCounter + 1 + (j + 1) * (t + 1) =
        s.downCounter + 1 + j * (t + 1) + t + 1 := by
      rw [Nat.succ_mul]
      omega
    rw [hidx]
    refine ⟨m', hm', g1, by omega, by omega, ?_, ?_⟩
    · rw [g4, hH, hlen, h4, e4,
        Nat.mod_eq_of_lt (by omega : 1 + (s.currentNote + j + 1) % 3 < word)]
      omega
    · rw [g5, ← hv]
      rfl

/-- With three keys held, the state `r` ticks after the advance number `j`. -/
theorem arp_three_cycle (inp : Nat → Nat) (s : State) (t : Nat) (H : List Nat)
    (hmode : s.mode = 1) (htempo : s.tempo = t) (ht : t < 65536) (hcur : s.currentNote < 3)
    (hd : s.downCounter ≤ t) (hH : ∀ i, heldPeriods (inp i) = H) (hlen : H.length = 3)
    (j r : Nat) (hr : r ≤ t) :
    ∃ m, ticks inp (s.downCounter + 1 + j * (t + 1) + r) s = some m ∧ m.mode = 1 ∧
      m.tempo = t ∧ m.downCounter = t - r ∧ m.currentNote = (s.currentNote + j + 1) % 3 ∧
      H[(s.currentNote + j) % 3]? = some m.TA0CCR0 := by
  obtain ⟨m0, hm0, e1, e2, e3, e4, e5⟩ :=
    arp_three_fire inp s t H hmode htempo ht hcur hd hH hlen j
  obtain ⟨m, hm, h1, h2, h3, h4, h5⟩ :=
    arp_countdown inp s m0 _ hm0 e1 (by omega) r (by omega)
  exact ⟨m, hm, h1, by omega, by omega, by omega, by rw [h5]; exact e5⟩

/-- With three keys held, the countdown is 0 exactly before the ticks number
`downCounter + j * (tempo + 1)`. -/
theorem arp_three_state (inp : Nat → Nat) (s : State) (t : Nat) (H : List Nat)
    (hmode : s.mode = 1) (htempo : s.tempo = t) (ht : t < 65536) (hcur : s.currentNote < 3)
    (hd : s.downCounter ≤ t) (hH : ∀ i, heldPeriods (inp i) = H) (hlen : H.length = 3)
    (k : Nat) :
    ∃ m, ticks inp k s = some m ∧ m.mode = 1 ∧ m.downCounter < 65536 ∧
      (m.downCounter = 0 ↔ ∃ j, k = s.downCounter + j * (t + 1)) := by
  by_cases hk : k ≤ s.downCounter
  · obtain ⟨m, hm, h1, -, h3, -, -⟩ :=
      arp_countdown inp s s 0 rfl hmode (by omega) k hk
    rw [Nat.zero_add] at hm
    refine ⟨m, hm, h1, by omega, ?_⟩
    constructor
    · intro h0
      exact ⟨0, by omega⟩
    · rintro ⟨j, hj⟩
      have : 0 ≤ j * (t + 1) := Nat.zero_le _
      omega
  · have hdm := Nat.div_add_mod (k - s.downCounter - 1) (t + 1)
    have hlt : (k - s.downCounter - 1) % (t + 1) < t + 1 := Nat.mod_lt _ (by omega)
    rw [Nat.mul_comm] at hdm
    obtain ⟨m, hm, h1, -, h3, -, -⟩ :=
      arp_three_cycle inp s t H hmode htempo ht hcur hd hH hlen
        ((k - s.downCounter - 1) / (t + 1)) ((k - s.downCounter - 1) % (t + 1)) (by omega)
    have hidx : s.downCounter + 1 + (k - s.downCounter - 1) / (t + 1) * (t + 1) +
        (k - s.downCounter - 1) % (t + 1) = k := by omega
    rw [hidx] at hm
    refine ⟨m, hm, h1, by omega, ?_⟩
    constructor
    · intro h0
      refine ⟨(k - s.downCounter - 1) / (t + 1) + 1, ?_⟩
      rw [Nat.succ_mul]
      omega
    · rintro ⟨j, hj⟩
      cases j with
      | zero => omega
      | succ j =>
        have hq : k - s.downCounter - 1 = t + (t + 1) * j := by
          rw [Nat.succ_mul] at hj
          rw [Nat.mul_comm]
          omega
        have hmod : (k - s.downCounter - 1) % (t + 1) = t := by
          rw [hq, Nat.add_mul_mod_self_left, Nat.mod_eq_of_lt (by omega)]
        omega

/-- C7 (as the code behaves). Arpeggiator periodicity: with `mode = 1`, tempo
fixed at `t`, the same three keys held at every tick, `currentNote < 3` and
`downCounter ≤ t` at the start, the note-advance ticks are exactly the ticks
number `downCounter + j * (t + 1)`, so `TA0CCR0` is rewritten exactly once
every `t + 1` ticks; advance number `j` writes the held period number
`(currentNote + j) mod 3`, so the values cycle through the three held periods
in key order and repeat; every other tick leaves `TA0CCR0` unchanged. -/
theorem C7_arpeggiator_period (inp : Nat → Nat) (s : State) (t : Nat) (H : List Nat)
    (hmode : s.mode = 1) (htempo : s.tempo = t) (ht : t < 65536) (hcur : s.currentNote < 3)
    (hd : s.downCounter ≤ t) (hH : ∀ i, heldPeriods (inp i) = H) (hlen : H.length = 3) :
    (∀ k, advanceTick inp s k = true ↔ ∃ j, k = s.downCounter + j * (t + 1)) ∧
    (∀ j, ∃ v, H[(s.currentNote + j) % 3]? = some v ∧
      outputAfter inp s (s.downCounter + j * (t + 1) + 1) = some v) ∧
    (∀ k, advanceTick inp s k = false →
      ∃ v, outputAfter inp s k = some v ∧ outputAfter inp s (k + 1) = some v) := by
  have hwd : word = 65536 := rfl
  refine ⟨fun k => ?_, fun j => ?_, fun k hk => ?_⟩
  · obtain ⟨m, hm, h1, -, h3⟩ :=
      arp_three_state inp s t H hmode htempo ht hcur hd hH hlen k
    rw [← h3]
    simp [advanceTick, hm, h1]
  · obtain ⟨m, hm, -, -, -, -, h5⟩ :=
      arp_three_fire inp s t H hmode htempo ht hcur hd hH hlen j
    have hidx : s.downCounter + j * (t + 1) + 1 = s.downCounter + 1 + j * (t + 1) := by omega
    exact ⟨m.TA0CCR0, h5, by rw [hidx]; simp [outputAfter, hm]⟩
  · obtain ⟨m, hm, h1, h2, -⟩ :=
      arp_three_state inp s t H hmode htempo ht hcur hd hH hlen k
    have h0 : m.downCounter ≠ 0 := by
      intro h0
      simp [advanceTick, hm, h1, h0] at hk
    obtain ⟨m', hm', -, -, -, -, g5⟩ := step_wait inp k s m hm h1 h0 (by omega)
    exact ⟨m.TA0CCR0, by simp [outputAfter, hm], by simp [outputAfter, hm', g5]⟩

theorem C7_arpeggiator_period_witness :
    (∀ k, advanceTick (fun _ => threeKeys) arpStart k = true ↔ ∃ j, k = 8 + j * 9) ∧
    outputAfter (fun _ => threeKeys) arpStart 9 = some 1515 ∧
    outputAfter (fun _ => threeKeys) arpStart 18 = some 1276 ∧
    outputAfter (fun _ => threeKeys) arpStart 27 = some 1136 ∧
    outputAfter (fun _ => threeKeys) arpStart 36 = some 1515 := by
  have h := C7_arpeggiator_period (fun _ => threeKeys) arpStart 8 [1515, 1276, 1136]
    rfl rfl (by decide) (by decide) (by decide)
    (fun _ => (by decide : heldPeriods threeKeys = [1515, 1276, 1136])) rfl
  refine ⟨h.1, ?_, ?_, ?_, ?_⟩
  · obtain ⟨v, h1, h2⟩ := h.2.1 0
    cases h1
    exact h2
  · obtain ⟨v, h1, h2⟩ := h.2.1 1
    cases h1
    exact h2
  · obtain ⟨v, h1, h2⟩ := h.2.1 2
    cases h1
    exact h2
  · obtain ⟨v, h1, h2⟩ := h.2.1 3
    cases h1
    exact h2

/-- C7 (as stated) fails: from `arpStart` (`mode = 1`, `tempo = 8`,
`downCounter = 8 ≤ 8`, `currentNote = 0 < 3`) with E4, G and A held at every
tick, the note-advance ticks among the first 19 ticks are the ticks number 8
and 17, which are 9 = `tempo + 1` ticks apart and not 8: the output written by
the first advance (1515) is still there 8 ticks later and is rewritten (to
1276) only by the ninth tick after it. -/
theorem C7_counterexample :
    arpStart.mode = 1 ∧ arpStart.tempo = 8 ∧ arpStart.downCounter ≤ 8 ∧
    arpStart.currentNote < 3 ∧ heldPeriods threeKeys = [1515, 1276, 1136] ∧
    (List.range 19).filter (advanceTick (fun _ => threeKeys) arpStart) = [8, 17] ∧
    outputAfter (fun _ => threeKeys) arpStart 8 = some 0 ∧
    outputAfter (fun _ => threeKeys) arpStart 9 = some 1515 ∧
    outputAfter (fun _ => threeKeys) arpStart (9 + 8) = some 1515 ∧
    outputAfter (fun _ => threeKeys) arpStart (9 + 9) = some 1276 := by
  decide

/-- C9 (as the code behaves). Releasing all keys in arpeggiator mode silences
the output within `t + 1` ticks: with `mode = 1`, `tempo = t`,
`downCounter ≤ t` and any `TA0CCR0`, if no key is held at any of the next
`t + 1` ticks, then `TA0CCR0 = 0` after `downCounter + 1` ticks, hence after at
most `t + 1` ticks, and it is still 0 after every later tick up to tick
`t + 1`. -/
theorem C9_arpeggiator_release_silences (inp : Nat → Nat) (s : State) (t : Nat)
    (hmode : s.mode = 1) (htempo : s.tempo = t) (ht : t < 65536) (hd : s.downCounter ≤ t)
    (hno : ∀ i, i < t + 1 → heldPeriods (inp i) = []) :
    ∀ k, s.downCounter + 1 ≤ k → k ≤ t + 1 → outputAfter inp s k = some 0 := by
  intro k hk1 hk2
  obtain ⟨m, hm, h1, h2, h3, -, -⟩ :=
    arp_countdown inp s s 0 rfl hmode (by omega) s.downCounter (Nat.le_refl _)
  rw [Nat.zero_add] at hm
  obtain ⟨m1, hm1, g1, g2, g3, -, g5⟩ :=
    step_silent inp s.downCounter s m hm h1 (by omega) (hno _ (by omega))
  obtain ⟨m2, hm2, -, -, -, -, e5⟩ :=
    arp_countdown inp s m1 _ hm1 g1 (by omega) (k - (s.downCounter + 1)) (by omega)
  have hidx : s.downCounter + 1 + (k - (s.downCounter + 1)) = k := by omega
  rw [hidx] at hm2
  simp [outputAfter, hm2, e5, g5]

theorem C9_arpeggiator_release_silences_witness :
    outputAfter (fun _ => noKeys) sounding 9 = some 0 :=
  C9_arpeggiator_release_silences (fun _ => noKeys) sounding 8 rfl rfl (by decide) (by decide)
    (fun _ _ => (by decide : heldPeriods noKeys = [])) 9 (by decide) (by decide)

/-- C9 (as stated) fails: `sounding` is reached from `arpStart` by nine ticks
with three keys held; it has `mode = 1`, `tempo = 8`, `downCounter = 8 ≤ 8`
and `TA0CCR0 = 1515`.  With no key held from then on, `TA0CCR0` is still 1515
after each of the next 8 ticks; only the ninth tick stores 0. -/
theorem C9_counterexample :
    ticks (fun _ => threeKeys) 9 arpStart = some sounding ∧
    sounding.mode = 1 ∧ sounding.tempo = 8 ∧ sounding.downCounter ≤ 8 ∧
    heldPeriods noKeys = [] ∧
    (∀ k, k ≤ 8 → outputAfter (fun _ => noKeys) sounding k = some 1515) ∧
    outputAfter (fun _ => noKeys) sounding 9 = some 0 := by
  decide

/-! ## Runs in glissando mode -/

/-- C10. Releasing all keys in glissando mode does not silence the output:
with `mode = 0`, after `k` ticks at each of which no key is held, `TA0CCR0`
equals its initial value, for every `k` and every rate. -/
theorem C10_glissando_release_keeps_output (inp : Nat → Nat) (s : State) (k : Nat)
    (hmode : s.mode = 0) (hno : ∀ i, i < k → heldPeriods (inp i) = []) :
    ∃ m, ticks inp k s = some m ∧ m.mode = 0 ∧ m.rate = s.rate ∧ m.TA0CCR0 = s.TA0CCR0 := by
  induction k with
  | zero => exact ⟨s, rfl, hmode, rfl, rfl⟩
  | succ k ih =>
    obtain ⟨m, hm, h1, h2, h3⟩ := ih (fun i hi => hno i (by omega))
    refine ⟨scanned m (inp k), ?_, h1, h2, h3⟩
    rw [ticks_succ inp k s m hm, wdt_gliss_idle m _ h1 (hno k (by omega))]

theorem C10_glissando_release_keeps_output_witness :
    ∃ m, ticks (fun _ => noKeys) 5 { sounding with mode := 0 } = some m ∧ m.TA0CCR0 = 1515 := by
  obtain ⟨m, hm, -, -, h⟩ :=
    C10_glissando_release_keeps_output (fun _ => noKeys) { sounding with mode := 0 } 5 rfl
      (fun _ _ => (by decide : heldPeriods noKeys = []))
  exact ⟨m, hm, h⟩

theorem heldPeriods_le (p x : Nat) (h : x ∈ heldPeriods p) : x ≤ 1515 := by
  unfold heldPeriods at h
  obtain ⟨k, hk, rfl⟩ := List.mem_map.mp h
  have hmem := (List.mem_filter.mp hk).1
  simp only [keyTable, List.mem_cons, List.mem_singleton, List.not_mem_nil, or_false] at hmem
  rcases hmem with rfl | rfl | rfl | rfl | rfl | rfl <;> decide

/-- While `TA0CCR0` is below the target, every glissando tick adds `rate`. -/
theorem gliss_ramp (inp : Nat → Nat) (s : State) (T : Nat) (hmode : s.mode = 0)
    (hr : s.rate ≤ 15) (hT : ∀ i, (heldPeriods (inp i)).getLast? = some T) (k : Nat)
    (hk : k = 0 ∨ s.TA0CCR0 + (k - 1) * s.rate < T) :
    ∃ m, ticks inp k s = some m ∧ m.mode = 0 ∧ m.rate = s.rate ∧
      m.TA0CCR0 = s.TA0CCR0 + k * s.rate := by
  have hwd : word = 65536 := rfl
  have hT15 : T ≤ 1515 := heldPeriods_le (inp 0) T (List.mem_of_getLast?_eq_some (hT 0))
  induction k with
  | zero => exact ⟨s, rfl, hmode, rfl, by omega⟩
  | succ k ih =>
    have hlt : s.TA0CCR0 + k * s.rate < T := by
      rcases hk with h | h
      · omega
      · simpa using h
    have hprev : k = 0 ∨ s.TA0CCR0 + (k - 1) * s.rate < T := by
      by_cases h0 : k = 0
      · exact Or.inl h0
      · have hmono : (k - 1) * s.rate ≤ k * s.rate := Nat.mul_le_mul_right _ (Nat.sub_le k 1)
        exact Or.inr (by omega)
    obtain ⟨m, hm, h1, h2, h3⟩ := ih hprev
    have hbelow : m.TA0CCR0 < T := by omega
    rw [ticks_succ inp k s m hm, wdt_gliss_held m _ T h1 (hT k), if_pos hbelow]
    refine ⟨_, rfl, h1, h2, ?_⟩
    show (m.TA0CCR0 + m.rate) % word = s.TA0CCR0 + (k + 1) * s.rate
    rw [Nat.succ_mul, Nat.mod_eq_of_lt (by omega)]
    omega

/-- C8. Glissando ramp with overshoot: with `mode = 0`, rate `r` with
`1 ≤ r ≤ 15`, a fixed non-empty held set with target period `T` and initial
`TA0CCR0 = p < T`, for every `k ≥ 1` with `p + (k - 1) * r < T` the output
after `k` ticks is exactly `p + k * r`; before tick number
`ceil ((T - p) / r)` the output is below `T`, after it the output is
`p + ceil ((T - p) / r) * r`, which is at least `T` and strictly greater than
`T` (not clamped to `T`) whenever `r` does not divide `T - p`. -/
theorem C8_glissando_ramp_overshoot (inp : Nat → Nat) (s : State) (T : Nat)
    (hmode : s.mode = 0) (hr1 : 1 ≤ s.rate) (hr2 : s.rate ≤ 15)
    (hT : ∀ i, (heldPeriods (inp i)).getLast? = some T) (hp : s.TA0CCR0 < T) :
    (∀ k, 1 ≤ k → s.TA0CCR0 + (k - 1) * s.rate < T →
      outputAfter inp s k = some (s.TA0CCR0 + k * s.rate)) ∧
    (∀ k, k < (T - s.TA0CCR0 + s.rate - 1) / s.rate →
      ∃ v, outputAfter inp s k = some v ∧ v < T) ∧
    (∃ v, outputAfter inp s ((T - s.TA0CCR0 + s.rate - 1) / s.rate) = some v ∧
      v = s.TA0CCR0 + (T - s.TA0CCR0 + s.rate - 1) / s.rate * s.rate ∧ T ≤ v ∧
      (¬ s.rate ∣ T - s.TA0CCR0 → T < v)) := by
  have hdm := Nat.div_add_mod (T - s.TA0CCR0 + s.rate - 1) s.rate
  have hml : (T - s.TA0CCR0 + s.rate - 1) % s.rate < s.rate := Nat.mod_lt _ (by omega)
  rw [Nat.mul_comm] at hdm
  generalize hc : (T - s.TA0CCR0 + s.rate - 1) / s.rate = c at hdm ⊢
  have hc1 : 1 ≤ c := by
    rcases Nat.eq_zero_or_pos c with h0 | h0
    · rw [h0, Nat.zero_mul] at hdm
      omega
    · exact h0
  obtain ⟨c', rfl⟩ : ∃ c', c = c' + 1 := ⟨c - 1, by omega⟩
  rw [Nat.succ_mul] at hdm
  have hlast : s.TA0CCR0 + (c' + 1 - 1) * s.rate < T := by
    rw [Nat.add_sub_cancel]
    omega
  refine ⟨fun k _ hk => ?_, fun k hk => ?_, ?_⟩
  · obtain ⟨m, hm, -, -, h3⟩ := gliss_ramp inp s T hmode hr2 hT k (Or.inr hk)
    simp [outputAfter, hm, h3]
  · have hmono : k * s.rate ≤ c' * s.rate := Nat.mul_le_mul_right _ (by omega)
    have hmono' : (k - 1) * s.rate ≤ k * s.rate := Nat.mul_le_mul_right _ (Nat.sub_le k 1)
    obtain ⟨m, hm, -, -, h3⟩ := gliss_ramp inp s T hmode hr2 hT k (Or.inr (by omega))
    exact ⟨m.TA0CCR0, by simp [outputAfter, hm], by omega⟩
  · obtain ⟨m, hm, -, -, h3⟩ := gliss_ramp inp s T hmode hr2 hT (c' + 1) (Or.inr hlast)
    refine ⟨m.TA0CCR0, by simp [outputAfter, hm], h3, ?_, fun hnd => ?_⟩
    · rw [h3, Nat.succ_mul]
      omega
    · have hne : (c' + 1) * s.rate ≠ T - s.TA0CCR0 := by
        intro he
        exact hnd ⟨c' + 1, by rw [← he, Nat.mul_comm]⟩
      rw [h3]
      rw [Nat.succ_mul] at hne ⊢
      omega

theorem C8_glissando_ramp_overshoot_witness :
    outputAfter (fun _ => threeKeys) { demo with mode := 0 } 27 = some 1135 ∧
    outputAfter (fun _ => threeKeys) { demo with mode := 0 } 28 = some 1140 := by
  have h := C8_glissando_ramp_overshoot (fun _ => threeKeys) { demo with mode := 0 } 1136 rfl
    (by decide) (by decide) (fun _ => (by decide : (heldPeriods threeKeys).getLast? = some 1136))
    (by decide)
  exact ⟨h.1 27 (by decide) (by decide), h.1 28 (by decide) (by decide)⟩

/-! ## Frames and invariants -/

/-- One more tick from a state with `mode = 0`: the output moves by `rate`
toward the target when a key is held and stays when none is. -/
theorem step_gliss (inp : Nat → Nat) (n : Nat) (s m : State) (h : ticks inp n s = some m)
    (hmode : m.mode = 0) :
    ∃ m', ticks inp (n + 1) s = some m' ∧ m'.mode = 0 ∧ m'.rate = m.rate ∧
      ((heldPeriods (inp n) = [] ∧ m'.TA0CCR0 = m.TA0CCR0) ∨
       ∃ T, (heldPeriods (inp n)).getLast? = some T ∧
        m'.TA0CCR0 = if m.TA0CCR0 < T then (m.TA0CCR0 + m.rate) % 65536
          else if m.TA0CCR0 > T then sub16 m.TA0CCR0 m.rate else m.TA0CCR0) := by
  rw [ticks_succ inp n s m h]
  by_cases hh : heldPeriods (inp n) = []
  · rw [wdt_gliss_idle m _ hmode hh]
    exact ⟨_, rfl, hmode, rfl, Or.inl ⟨hh, rfl⟩⟩
  · have hT := List.getLast?_eq_getLast _ hh
    rw [wdt_gliss_held m _ _ hmode hT]
    refine ⟨_, rfl, ?_, ?_, Or.inr ⟨_, hT, ?_⟩⟩
    · split_ifs <;> exact hmode
    · split_ifs <;> rfl
    · split_ifs <;> rfl

/-- C11. With `mode = 0` and `rate = 0` the output never changes: for every
initial (16-bit) `TA0CCR0`, every `k` and every sequence of port readings, one
per tick, `TA0CCR0` after the `k` ticks equals its initial value. -/
theorem C11_glissando_rate_zero_frozen (inp : Nat → Nat) (s : State) (k : Nat)
    (hmode : s.mode = 0) (hrate : s.rate = 0) (hw : s.TA0CCR0 < 65536) :
    ∃ m, ticks inp k s = some m ∧ m.mode = 0 ∧ m.rate = 0 ∧ m.TA0CCR0 = s.TA0CCR0 := by
  induction k with
  | zero => exact ⟨s, rfl, hmode, hrate, rfl⟩
  | succ k ih =>
    obtain ⟨m, hm, h1, h2, h3⟩ := ih
    obtain ⟨m', hm', g1, g2, g3⟩ := step_gliss inp k s m hm h1
    refine ⟨m', hm', g1, g2.trans h2, ?_⟩
    rcases g3 with ⟨-, g3⟩ | ⟨T, -, g3⟩
    · exact g3.trans h3
    · rw [g3, h2, h3]
      unfold sub16
      split_ifs <;> omega

theorem C11_glissando_rate_zero_frozen_witness :
    ∃ m, ticks (fun i => if i % 2 = 0 then threeKeys else noKeys) 6
        { demo with mode := 0, rate := 0 } = some m ∧ m.TA0CCR0 = 1000 := by
  obtain ⟨m, hm, -, -, h⟩ := C11_glissando_rate_zero_frozen
    (fun i => if i % 2 = 0 then threeKeys else noKeys) { demo with mode := 0, rate := 0 } 6
    rfl rfl (by decide)
  exact ⟨m, hm, h⟩

/-- C12. Mode toggle frame: `buttonHandler` changes nothing except `mode` and
the flag register `P2IFG`; `currentNote`, `downCounter`, `TA0CCR0`, `notes`,
`numberOfNotes`, `rate`, `tempo` (and `ADC10CTL0`) are unchanged, so a toggle
in mid-sequence carries the cursor and the countdown over without reset. -/
theorem C12_mode_toggle_frame (s : State) :
    (buttonHandler s).currentNote = s.currentNote ∧
    (buttonHandler s).downCounter = s.downCounter ∧
    (buttonHandler s).TA0CCR0 = s.TA0CCR0 ∧
    (buttonHandler s).notes = s.notes ∧
    (buttonHandler s).numberOfNotes = s.numberOfNotes ∧
    (buttonHandler s).rate = s.rate ∧
    (buttonHandler s).tempo = s.tempo ∧
    (buttonHandler s).ADC10CTL0 = s.ADC10CTL0 := by
  unfold buttonHandler
  by_cases hf : s.P2IFG &&& mode_select ≠ 0
  · rw [if_pos hf]
    by_cases h0 : s.mode = 0
    · simp [h0]
    · by_cases h1 : s.mode = 1
      · simp [h0, h1]
      · simp [h0, h1]
  · rw [if_neg hf]
    simp

theorem heldPeriods_ge (p x : Nat) (h : x ∈ heldPeriods p) : 759 ≤ x := by
  unfold heldPeriods at h
  obtain ⟨k, hk, rfl⟩ := List.mem_map.mp h
  have hmem := (List.mem_filter.mp hk).1
  simp only [keyTable, List.mem_cons, List.mem_singleton, List.not_mem_nil, or_false] at hmem
  rcases hmem with rfl | rfl | rfl | rfl | rfl | rfl <;> decide

theorem paddedNotes_le (p v : Nat) (h : v ∈ paddedNotes p) : v ≤ 1515 := by
  rcases List.mem_append.mp h with h | h
  · exact heldPeriods_le p v h
  · rw [List.eq_of_mem_replicate h]
    exact Nat.zero_le _

/-- A tick completes whenever `currentNote` is a valid index of `notes`. -/
theorem wdt_total (s : State) (p : Nat) (hc : s.currentNote < 6) :
    ∃ s', wdtIntervalHandler s p = some s' := by
  have hlen := heldPeriods_length_le p
  have hpad := paddedNotes_length p
  cases hw : wdtIntervalHandler s p with
  | some s' => exact ⟨s', rfl⟩
  | none =>
    exfalso
    rw [wdt_eq_advance, advance_none_iff] at hw
    simp only [glissTarget, scanned, read_scanned, List.getElem?_eq_none_iff, hpad] at hw
    rcases hw with ⟨-, h1, h2⟩ | ⟨-, -, -, h2⟩
    · rw [lastIndex_scanned p h1] at h2
      omega
    · omega

/-- A tick with `mode` neither 0 nor 1 only rescans. -/
theorem wdt_other (s : State) (p : Nat) (h0 : s.mode ≠ 0) (h1 : s.mode ≠ 1) :
    wdtIntervalHandler s p = some (scanned s p) := by
  have hm0 : (scanned s p).mode ≠ 0 := h0
  have hm1 : (scanned s p).mode ≠ 1 := h1
  rw [wdt_eq_advance]
  simp only [advance, hm0, hm1, if_false]

/-- What an arpeggiator tick with expired countdown and a held key stores. -/
theorem wdt_arp_fire_inv (s s' : State) (p : Nat) (hmode : s.mode = 1)
    (h0 : s.downCounter = 0) (hh : heldPeriods p ≠ [])
    (h : wdtIntervalHandler s p = some s') :
    s'.downCounter = s.tempo ∧ (paddedNotes p)[s.currentNote]? = some s'.TA0CCR0 ∧
      s'.currentNote = ((1 + s.currentNote) % word) % (heldPeriods p).length := by
  have hm0 : (scanned s p).mode ≠ 0 := by
    show s.mode ≠ 0
    omega
  have hm1 : (scanned s p).mode = 1 := hmode
  have hd : (scanned s p).downCounter = s.downCounter := rfl
  have hn : (scanned s p).numberOfNotes ≠ 0 := by
    show (heldPeriods p).length ≠ 0
    simpa [List.length_eq_zero] using hh
  rw [wdt_eq_advance] at h
  simp only [advance, remU, hm0, hm1, hd, h0, hn, if_false, if_true, ne_eq,
    not_false_eq_true] at h
  obtain ⟨v, hv, h2⟩ := Option.bind_eq_some.mp h
  rw [Option.map_some'] at h2
  cases h2
  exact ⟨rfl, hv, rfl⟩

/-- One tick keeps `currentNote` a valid index and `TA0CCR0` at most 1529. -/
theorem wdt_inv_step (s s' : State) (p : Nat) (h : wdtIntervalHandler s p = some s') :
    (s.currentNote < 6 → s'.currentNote < 6) ∧
    (s.rate ≤ 15 → s.TA0CCR0 ≤ 1529 → s'.TA0CCR0 ≤ 1529) := by
  have hwd : word = 65536 := rfl
  have hlen := heldPeriods_length_le p
  by_cases hm0 : s.mode = 0
  · by_cases hh : heldPeriods p = []
    · rw [wdt_gliss_idle s p hm0 hh] at h
      cases h
      exact ⟨fun hc => hc, fun _ hc => hc⟩
    · have hT := List.getLast?_eq_getLast _ hh
      have hge := heldPeriods_ge p _ (List.getLast_mem hh)
      have hle := heldPeriods_le p _ (List.getLast_mem hh)
      rw [wdt_gliss_held s p _ hm0 hT] at h
      cases h
      refine ⟨fun hc => ?_, fun hr hc => ?_⟩
      · split_ifs <;> exact hc
      · split_ifs with h1 h2
        · show (s.TA0CCR0 + s.rate) % word ≤ 1529
          rw [Nat.mod_eq_of_lt (by omega)]
          omega
        · show sub16 s.TA0CCR0 s.rate ≤ 1529
          unfold sub16
          omega
        · exact hc
  · by_cases hm1 : s.mode = 1
    · by_cases hd : s.downCounter = 0
      · by_cases hh : heldPeriods p = []
        · rw [wdt_arp_silent s p hm1 hd hh] at h
          cases h
          exact ⟨fun hc => hc, fun _ _ => Nat.zero_le _⟩
        · obtain ⟨-, hv, hc'⟩ := wdt_arp_fire_inv s s' p hm1 hd hh h
          have hpos : 0 < (heldPeriods p).length := List.length_pos.mpr hh
          refine ⟨fun _ => ?_, fun _ _ => ?_⟩
          · rw [hc']
            exact Nat.lt_of_lt_of_le (Nat.mod_lt _ hpos) hlen
          · have := paddedNotes_le p _ (List.getElem?_mem hv)
            omega
      · rw [wdt_arp_wait s p hm1 hd] at h
        cases h
        exact ⟨fun hc => hc, fun _ hc => hc⟩
    · rw [wdt_other s p hm0 hm1] at h
      cases h
      exact ⟨fun hc => hc, fun _ hc => hc⟩

/-- The fields that `buttonHandler` leaves alone and the invariants read. -/
theorem buttonHandler_keeps (s : State) :
    (buttonHandler s).currentNote = s.currentNote ∧ (buttonHandler s).rate = s.rate ∧
    (buttonHandler s).tempo = s.tempo ∧ (buttonHandler s).TA0CCR0 = s.TA0CCR0 := by
  unfold buttonHandler
  split_ifs <;> simp

/-- Invariants of the reachable states. -/
theorem reachable_inv (s : State) (h : Reachable s) :
    s.currentNote < 6 ∧ s.rate ≤ 15 ∧ s.TA0CCR0 ≤ 1529 ∧
      (s.tempo = 8 ∨ (12 ≤ s.tempo ∧ s.tempo ≤ 114)) := by
  induction h with
  | start => exact ⟨by decide, by decide, by decide, Or.inl rfl⟩
  | tick s s' p _ hw ih =>
    obtain ⟨i1, i2, i3, i4⟩ := ih
    obtain ⟨-, hr, ht, -⟩ := wdt_frame s s' p hw
    obtain ⟨g1, g2⟩ := wdt_inv_step s s' p hw
    exact ⟨g1 i1, by omega, g2 i2 i3, by omega⟩
  | sample s m _ hm ih =>
    obtain ⟨i1, i2, i3, i4⟩ := ih
    have hr : (adcHandler s m).rate = (m / 64) % 65536 := rfl
    have ht : (adcHandler s m).tempo = (m / 10 + 12) % 65536 := rfl
    have h1 : m / 64 ≤ 15 := by omega
    have h2 : m / 10 ≤ 102 := by omega
    rw [Nat.mod_eq_of_lt (by omega)] at hr ht
    refine ⟨i1, by omega, i3, Or.inr (by omega)⟩
  | edge s f _ ih =>
    obtain ⟨i1, i2, i3, i4⟩ := ih
    obtain ⟨g1, g2, g3, g4⟩ := buttonHandler_keeps { s with P2IFG := f }
    rw [g1, g2, g3, g4]
    exact ⟨i1, i2, i3, i4⟩

/-- Reachability is closed under runs of ticks. -/
theorem reachable_ticks (inp : Nat → Nat) (s : State) (hs : Reachable s) (k : Nat) :
    ∀ m, ticks inp k s = some m → Reachable m := by
  induction k with
  | zero =>
    intro m hm
    cases hm
    exact hs
  | succ k ih =>
    intro m hm
    cases hk : ticks inp k s with
    | none => simp [ticks, hk] at hm
    | some x =>
      rw [ticks_succ inp k s x hk] at hm
      exact Reachable.tick x m (inp k) (ih x hk) hm

theorem reachable_arpStart : Reachable arpStart :=
  Reachable.edge init mode_select Reachable.start

/-! ## Claims on the reachable states -/

/-- C13 (the code breaks it). From `arpStart`, holding E4, G and A for 18 ticks
lets the arpeggiator advance twice, so `currentNote = 2`; the next tick finds
only E4 held and ends with `numberOfNotes = 1` and `currentNote = 2`, which is
not below `max 1 numberOfNotes`.  The stale cursor is then used: the advance at
tick number 26 stores the cleared cell `notes[2] = 0` in `TA0CCR0` although E4
is held. -/
theorem C13_cursor_outruns_note_count :
    (∃ m, Reachable m ∧ ticks staleRun 19 arpStart = some m ∧ m.numberOfNotes = 1 ∧
      m.currentNote = 2 ∧ ¬ m.currentNote < max 1 m.numberOfNotes) ∧
    heldPeriods (staleRun 26) = [1515] ∧
    advanceTick staleRun arpStart 26 = true ∧
    outputAfter staleRun arpStart 26 = some 1276 ∧
    outputAfter staleRun arpStart 27 = some 0 := by
  have h : (ticks staleRun 19 arpStart).map (fun x => (x.numberOfNotes, x.currentNote)) =
      some (1, 2) := by decide
  obtain ⟨m, hm, hp⟩ := Option.map_eq_some'.mp h
  have h1 : m.numberOfNotes = 1 := congrArg Prod.fst hp
  have h2 : m.currentNote = 2 := congrArg Prod.snd hp
  refine ⟨⟨m, reachable_ticks staleRun arpStart reachable_arpStart 19 m hm, hm, h1, h2, ?_⟩,
    by decide, by decide, by decide, by decide⟩
  rw [h1, h2]
  decide

/-- C15. Single-writer discipline: a tick leaves `mode`, `rate` and `tempo`
unchanged (and completes whenever `currentNote` is a valid index), and
`adcHandler` leaves `notes`, `numberOfNotes`, `currentNote`, `downCounter`,
`TA0CCR0` and `mode` unchanged: it writes only `rate` and `tempo`. -/
theorem C15_single_writer_frames (s : State) (P1IN ADC10MEM : Nat) :
    (∀ s', wdtIntervalHandler s P1IN = some s' →
      s'.mode = s.mode ∧ s'.rate = s.rate ∧ s'.tempo = s.tempo) ∧
    (s.currentNote < 6 → ∃ s', wdtIntervalHandler s P1IN = some s') ∧
    ((adcHandler s ADC10MEM).notes = s.notes ∧
      (adcHandler s ADC10MEM).numberOfNotes = s.numberOfNotes ∧
      (adcHandler s ADC10MEM).currentNote = s.currentNote ∧
      (adcHandler s ADC10MEM).downCounter = s.downCounter ∧
      (adcHandler s ADC10MEM).TA0CCR0 = s.TA0CCR0 ∧
      (adcHandler s ADC10MEM).mode = s.mode ∧
      (adcHandler s ADC10MEM).ADC10CTL0 = s.ADC10CTL0 ∧
      (adcHandler s ADC10MEM).P2IFG = s.P2IFG) := by
  refine ⟨fun s' h => ?_, wdt_total s P1IN, ⟨rfl, rfl, rfl, rfl, rfl, rfl, rfl, rfl⟩⟩
  obtain ⟨hm, hr, ht, -⟩ := wdt_frame s s' P1IN h
  exact ⟨hm, hr, ht⟩

/-- C16. Totality of the tick: in every reachable state `currentNote ≤ 5`, and
for every port reading the scan completes (every write `notes[numberOfNotes]`
is in bounds) with `numberOfNotes ≤ 6`; when `numberOfNotes ≠ 0` the reads
`notes[numberOfNotes - 1]` and `notes[currentNote]` are in bounds and the
remainder `(1 + currentNote) % numberOfNotes` is defined; when
`numberOfNotes = 0` the read `notes[numberOfNotes - 1]` would be out of bounds
(index 65535) and the remainder would divide by zero, and the whole tick
completes all the same, so neither is evaluated then. -/
theorem C16_tick_is_total (s : State) (h : Reachable s) :
    s.currentNote ≤ 5 ∧
    ∀ P1IN, (∃ m, rescan s P1IN = some m ∧ m.numberOfNotes ≤ 6 ∧ m.currentNote ≤ 5 ∧
        (m.numberOfNotes ≠ 0 →
          (∃ T, glissTarget m = some T) ∧ (∃ v, m.notes.read m.currentNote = some v) ∧
          ∃ c, remU ((1 + m.currentNote) % word) m.numberOfNotes = some c) ∧
        (m.numberOfNotes = 0 →
          glissTarget m = none ∧
          remU ((1 + m.currentNote) % word) m.numberOfNotes = none)) ∧
      ∃ s', wdtIntervalHandler s P1IN = some s' := by
  obtain ⟨hc, -⟩ := reachable_inv s h
  refine ⟨by omega, fun p => ⟨⟨scanned s p, rescan_eq s p, heldPeriods_length_le p, ?_, ?_,
    fun hn => ⟨?_, by rw [remU, if_pos hn]⟩⟩, wdt_total s p hc⟩⟩
  rotate_left
  rotate_left
  · show (scannedNotes p).read (sub16 (scanned s p).numberOfNotes 1) = none
    rw [hn, read_scanned, List.getElem?_eq_none_iff, paddedNotes_length]
    decide
  · show s.currentNote ≤ 5
    omega
  · intro hn
    have hh : heldPeriods p ≠ [] := by
      intro he
      apply hn
      show (heldPeriods p).length = 0
      rw [he]
      rfl
    refine ⟨⟨_, glissTarget_scanned s p hh⟩, ?_, ?_⟩
    · have hlt : s.currentNote < (paddedNotes p).length := by
        rw [paddedNotes_length]
        exact hc
      exact ⟨_, (read_scanned p s.currentNote).trans (List.getElem?_eq_getElem hlt)⟩
    · exact ⟨_, by rw [remU, if_neg hn]⟩

theorem C16_tick_is_total_witness :
    arpStart.currentNote ≤ 5 ∧
    (∃ s', wdtIntervalHandler arpStart threeKeys = some s') ∧
    (∃ s', wdtIntervalHandler init noKeys = some s') ∧
    glissTarget (scanned init noKeys) = none := by
  obtain ⟨h1, h2⟩ := C16_tick_is_total arpStart reachable_arpStart
  exact ⟨h1, (h2 threeKeys).2, (C16_tick_is_total init Reachable.start).2 noKeys |>.2,
    by decide⟩

/-- C17 (as the code behaves). In arpeggiator mode the advance fires on the
tick that finds `downCounter = 0`, that is on the tick after the one that
brought it to zero; the post-decrement wraps the 16-bit counter to 65535 only
inside that tick, which then reloads it: after the firing tick
`downCounter = tempo`, and the next advance is the tick number `tempo` after
it, `tempo + 1` ticks later, whatever keys are held. -/
theorem C17_countdown_reloaded_after_wrap (s : State) (P1IN : Nat) (hmode : s.mode = 1)
    (h0 : s.downCounter = 0) (hc : s.currentNote < 6) (ht : s.tempo < 65536) :
    sub16 s.downCounter 1 = 65535 ∧
    ∃ s', wdtIntervalHandler s P1IN = some s' ∧ s'.downCounter = s.tempo ∧
      ∀ (inp : Nat → Nat) (k : Nat), k ≤ s.tempo →
        (advanceTick inp s' k = true ↔ k = s.tempo) := by
  refine ⟨by rw [h0]; decide, ?_⟩
  obtain ⟨s', hs'⟩ := wdt_total s P1IN hc
  have hm' : s'.mode = 1 := (wdt_frame s s' P1IN hs').1.trans hmode
  have hd' : s'.downCounter = s.tempo := by
    by_cases hh : heldPeriods P1IN = []
    · rw [wdt_arp_silent s P1IN hmode h0 hh] at hs'
      cases hs'
      rfl
    · exact (wdt_arp_fire_inv s s' P1IN hmode h0 hh hs').1
  refine ⟨s', hs', hd', fun inp k hk => ?_⟩
  obtain ⟨m, hm, h1, -, h3, -, -⟩ :=
    arp_countdown inp s' s' 0 rfl hm' (by omega) k (by omega)
  rw [Nat.zero_add] at hm
  simp only [advanceTick, hm, h1, true_and, decide_eq_true_eq]
  omega

theorem C17_countdown_reloaded_after_wrap_witness :
    ∃ s', wdtIntervalHandler demo threeKeys = some s' ∧ s'.downCounter = 8 ∧
      (advanceTick (fun _ => threeKeys) s' 8 = true) := by
  obtain ⟨-, s', h1, h2, h3⟩ :=
    C17_countdown_reloaded_after_wrap demo threeKeys rfl rfl (by decide) (by decide)
  exact ⟨s', h1, h2, (h3 (fun _ => threeKeys) 8 (by decide)).mpr rfl⟩

/-- C17 (as stated) fails: from `demo` (`mode = 1`, `downCounter = 0`,
`tempo = 8`) the firing tick ends with `downCounter = 8`, not 65535, and in
the run from `arpStart` the advance at tick number 8 is followed by the next
advance at tick number 17, nine ticks later and not about 65536. -/
theorem C17_counterexample :
    demo.mode = 1 ∧ demo.downCounter = 0 ∧
    (wdtIntervalHandler demo threeKeys).map (fun x => x.downCounter) = some 8 ∧
    (wdtIntervalHandler demo noKeys).map (fun x => x.downCounter) = some 8 ∧
    advanceTick (fun _ => threeKeys) arpStart 8 = true ∧
    (ticks (fun _ => threeKeys) 9 arpStart).map (fun x => x.downCounter) = some 8 ∧
    advanceTick (fun _ => threeKeys) arpStart 17 = true := by
  decide

theorem paddedNotes_stale (p i : Nat) (h1 : (heldPeriods p).length ≤ i) (h2 : i < 6) :
    (paddedNotes p)[i]? = some 0 := by
  rw [paddedNotes, List.getElem?_append_right h1, List.getElem?_replicate,
    if_pos (by omega)]

/-- C18. Stale cursor read: with `mode = 1`, `downCounter = 0` and a reading
with `n` held keys where `1 ≤ n ≤ currentNote ≤ 5`, the tick stores 0 (the
cleared cell `notes[currentNote]`) in `TA0CCR0` although keys are held, and
sets `currentNote` to `(currentNote + 1) mod n`; such a state is reachable
from system start: arpeggiate three held keys until the cursor is 2 and the
countdown is 0, then hold a single key. -/
theorem C18_stale_cursor_read :
    (∀ (s : State) (P1IN : Nat), s.mode = 1 → s.downCounter = 0 →
      1 ≤ (heldPeriods P1IN).length → (heldPeriods P1IN).length ≤ s.currentNote →
      s.currentNote ≤ 5 →
      ∃ s', wdtIntervalHandler s P1IN = some s' ∧ s'.TA0CCR0 = 0 ∧
        s'.currentNote = (s.currentNote + 1) % (heldPeriods P1IN).length) ∧
    (∃ (s : State) (P1IN : Nat), Reachable s ∧ s.mode = 1 ∧ s.downCounter = 0 ∧
      1 ≤ (heldPeriods P1IN).length ∧ (heldPeriods P1IN).length ≤ s.currentNote ∧
      s.currentNote ≤ 5) := by
  have hwd : word = 65536 := rfl
  constructor
  · intro s p hmode h0 hn1 hn2 hc
    obtain ⟨s', hs'⟩ := wdt_total s p (by omega)
    have hh : heldPeriods p ≠ [] := by
      intro he
      rw [he] at hn1
      exact absurd hn1 (by decide)
    obtain ⟨-, hv, hcur⟩ := wdt_arp_fire_inv s s' p hmode h0 hh hs'
    rw [paddedNotes_stale p _ hn2 (by omega)] at hv
    refine ⟨s', hs', (Option.some.inj hv).symm, ?_⟩
    rw [hcur, Nat.mod_eq_of_lt (by omega : 1 + s.currentNote < word), Nat.add_comm]
  · have h : (ticks (fun _ => threeKeys) 26 arpStart).map
        (fun x => (x.mode, x.downCounter, x.currentNote)) = some (1, 0, 2) := by decide
    obtain ⟨m, hm, hp⟩ := Option.map_eq_some'.mp h
    have h1 : m.mode = 1 := congrArg Prod.fst hp
    have h2 : m.downCounter = 0 := congrArg (fun q => q.2.1) hp
    have h3 : m.currentNote = 2 := congrArg (fun q => q.2.2) hp
    have hl : (heldPeriods oneKey).length = 1 := by decide
    refine ⟨m, oneKey,
      reachable_ticks (fun _ => threeKeys) arpStart reachable_arpStart 26 m hm, h1, h2, ?_⟩
    rw [hl, h3]
    decide

/-- C19. No wrap-around of the output register: in every reachable state
`TA0CCR0 ≤ 1529`, and a glissando update never overflows or underflows 16
bits: when `TA0CCR0` is below the target, `TA0CCR0 + rate < 65536` and the
tick stores exactly `TA0CCR0 + rate`; when it is above, `rate ≤ TA0CCR0` and
the tick stores exactly `TA0CCR0 - rate`. -/
theorem C19_output_never_wraps (s : State) (h : Reachable s) :
    s.TA0CCR0 ≤ 1529 ∧
    ∀ P1IN T, s.mode = 0 → (heldPeriods P1IN).getLast? = some T →
      (s.TA0CCR0 < T → s.TA0CCR0 + s.rate < 65536 ∧
        ∃ s', wdtIntervalHandler s P1IN = some s' ∧ s'.TA0CCR0 = s.TA0CCR0 + s.rate) ∧
      (T < s.TA0CCR0 → s.rate ≤ s.TA0CCR0 ∧
        ∃ s', wdtIntervalHandler s P1IN = some s' ∧ s'.TA0CCR0 + s.rate = s.TA0CCR0) := by
  have hwd : word = 65536 := rfl
  obtain ⟨-, hr, hc, -⟩ := reachable_inv s h
  refine ⟨hc, fun p T hmode hT => ?_⟩
  have hge := heldPeriods_ge p T (List.mem_of_getLast?_eq_some hT)
  rw [wdt_gliss_held s p T hmode hT]
  constructor
  · intro hlt
    refine ⟨by omega, _, rfl, ?_⟩
    rw [if_pos hlt]
    show (s.TA0CCR0 + s.rate) % word = _
    exact Nat.mod_eq_of_lt (by omega)
  · intro hgt
    refine ⟨by omega, _, rfl, ?_⟩
    rw [if_neg (by omega), if_pos hgt]
    show sub16 s.TA0CCR0 s.rate + s.rate = _
    unfold sub16
    omega

theorem C19_output_never_wraps_witness :
    (adcHandler init 1023).TA0CCR0 ≤ 1529 ∧
    ∃ s', wdtIntervalHandler (adcHandler init 1023) threeKeys = some s' ∧
      s'.TA0CCR0 = 15 := by
  obtain ⟨h1, h2⟩ := C19_output_never_wraps (adcHandler init 1023)
    (Reachable.sample init 1023 Reachable.start (by decide))
  obtain ⟨-, s', hs', hv⟩ := (h2 threeKeys 1136 rfl (by decide)).1 (by decide)
  exact ⟨h1, s', hs', hv⟩

/-! ## Glissando convergence -/

/-- One glissando tick with a held key, from a 16-bit output and a rate of at
most 15: the stored value is the mathematical one. -/
theorem step_gliss_held (inp : Nat → Nat) (n T : Nat) (s m : State)
    (h : ticks inp n s = some m) (hmode : m.mode = 0)
    (hT : (heldPeriods (inp n)).getLast? = some T) (hr : m.rate ≤ 15)
    (hv : m.TA0CCR0 < 65536) :
    ∃ m', ticks inp (n + 1) s = some m' ∧ m'.mode = 0 ∧ m'.rate = m.rate ∧
      m'.TA0CCR0 = if m.TA0CCR0 < T then m.TA0CCR0 + m.rate
        else if T < m.TA0CCR0 then m.TA0CCR0 - m.rate else m.TA0CCR0 := by
  have hwd : word = 65536 := rfl
  have hge := heldPeriods_ge _ T (List.mem_of_getLast?_eq_some hT)
  have hle := heldPeriods_le _ T (List.mem_of_getLast?_eq_some hT)
  rw [ticks_succ inp n s m h, wdt_gliss_held m _ T hmode hT]
  by_cases h1 : m.TA0CCR0 < T
  · rw [if_pos h1, if_pos h1]
    refine ⟨_, rfl, hmode, rfl, ?_⟩
    show (m.TA0CCR0 + m.rate) % word = _
    exact Nat.mod_eq_of_lt (by omega)
  · by_cases h2 : T < m.TA0CCR0
    · rw [if_neg h1, if_neg h1, if_pos h2, if_pos h2]
      refine ⟨_, rfl, hmode, rfl, ?_⟩
      show sub16 m.TA0CCR0 m.rate = _
      unfold sub16
      omega
    · rw [if_neg h1, if_neg h1, if_neg h2, if_neg h2]
      exact ⟨_, rfl, hmode, rfl, rfl⟩

theorem mod_eq_iff_dvd_gap (r T p : Nat) : T % r = p % r ↔ r ∣ gap T p := by
  unfold gap
  by_cases h : p ≤ T
  · rw [Nat.sub_eq_zero_of_le h, Nat.add_zero]
    exact ⟨fun e => (Nat.modEq_iff_dvd' h).mp e.symm, fun d => ((Nat.modEq_iff_dvd' h).mpr d).symm⟩
  · have h' : T ≤ p := by omega
    rw [Nat.sub_eq_zero_of_le h', Nat.zero_add]
    exact ⟨fun e => (Nat.modEq_iff_dvd' h').mp e, fun d => (Nat.modEq_iff_dvd' h').mpr d⟩

theorem near_eq (r v T : Nat) (hmod : v % r = T % r) (h1 : v < T + r) (h2 : T < v + r) :
    v = T := by
  have hd := (mod_eq_iff_dvd_gap r v T).mp hmod
  have hlt : gap v T < r := by
    unfold gap
    omega
  have h0 := Nat.eq_zero_of_dvd_of_lt hd hlt
  unfold gap at h0
  omega

theorem ceil_mul_ge (g r : Nat) (hr : 1 ≤ r) : g ≤ (g + r - 1) / r * r := by
  have hdm := Nat.div_add_mod (g + r - 1) r
  have hml : (g + r - 1) % r < r := Nat.mod_lt _ (by omega)
  rw [Nat.mul_comm] at hdm
  omega

/-- The glissando run: the output keeps its residue modulo the rate, and it
either is within one rate step of the target or has moved `k` steps toward it. -/
theorem gliss_track (inp : Nat → Nat) (s : State) (T : Nat) (hmode : s.mode = 0)
    (hr1 : 1 ≤ s.rate) (hr2 : s.rate ≤ 15)
    (hT : ∀ i, (heldPeriods (inp i)).getLast? = some T) (hw : s.TA0CCR0 < 65536) (k : Nat) :
    ∃ m, ticks inp k s = some m ∧ m.mode = 0 ∧ m.rate = s.rate ∧
      m.TA0CCR0 % s.rate = s.TA0CCR0 % s.rate ∧ m.TA0CCR0 < 65536 ∧
      ((m.TA0CCR0 < T + s.rate ∧ T < m.TA0CCR0 + s.rate) ∨
       (T ≤ m.TA0CCR0 ∧ m.TA0CCR0 + k * s.rate ≤ s.TA0CCR0) ∨
       (m.TA0CCR0 ≤ T ∧ s.TA0CCR0 + k * s.rate ≤ m.TA0CCR0)) := by
  have hge := heldPeriods_ge _ T (List.mem_of_getLast?_eq_some (hT 0))
  have hle := heldPeriods_le _ T (List.mem_of_getLast?_eq_some (hT 0))
  induction k with
  | zero =>
    refine ⟨s, rfl, hmode, rfl, rfl, hw, ?_⟩
    by_cases h : T ≤ s.TA0CCR0
    · exact Or.inr (Or.inl ⟨h, by omega⟩)
    · exact Or.inr (Or.inr ⟨by omega, by omega⟩)
  | succ k ih =>
    obtain ⟨m, hm, h1, h2, h3, h4, h5⟩ := ih
    obtain ⟨m', hm', g1, g2, g3⟩ :=
      step_gliss_held inp k T s m hm h1 (hT k) (by omega) h4
    rw [h2] at g3
    refine ⟨m', hm', g1, g2.trans h2, ?_, ?_, ?_⟩
    · rw [g3]
      split_ifs with c1 c2
      · rw [Nat.add_mod_right, h3]
      · rw [← Nat.mod_eq_sub_mod (by omega), h3]
      · exact h3
    · rw [g3]
      split_ifs <;> omega
    · rw [g3, Nat.succ_mul]
      split_ifs with c1 c2
      · rcases h5 with h5 | h5 | h5
        · left
          omega
        · omega
        · by_cases c3 : m.TA0CCR0 + s.rate ≤ T
          · right
            right
            omega
          · left
            omega
      · rcases h5 with h5 | h5 | h5
        · left
          omega
        · by_cases c3 : T + s.rate ≤ m.TA0CCR0
          · right
            left
            omega
          · left
            omega
        · omega
      · left
        omega

/-- From `ceil (|T - p| / r)` ticks on, the output is within one rate step of
the target. -/
theorem gliss_near (inp : Nat → Nat) (s : State) (T : Nat) (hmode : s.mode = 0)
    (hr1 : 1 ≤ s.rate) (hr2 : s.rate ≤ 15)
    (hT : ∀ i, (heldPeriods (inp i)).getLast? = some T) (hw : s.TA0CCR0 < 65536) (k : Nat)
    (hk : (gap T s.TA0CCR0 + s.rate - 1) / s.rate ≤ k) :
    ∃ m, ticks inp k s = some m ∧ m.mode = 0 ∧ m.rate = s.rate ∧
      m.TA0CCR0 % s.rate = s.TA0CCR0 % s.rate ∧ m.TA0CCR0 < 65536 ∧
      m.TA0CCR0 < T + s.rate ∧ T < m.TA0CCR0 + s.rate := by
  obtain ⟨m, hm, h1, h2, h3, h4, h5⟩ := gliss_track inp s T hmode hr1 hr2 hT hw k
  refine ⟨m, hm, h1, h2, h3, h4, ?_⟩
  have hceil := ceil_mul_ge (gap T s.TA0CCR0) s.rate hr1
  have hmono : (gap T s.TA0CCR0 + s.rate - 1) / s.rate * s.rate ≤ k * s.rate :=
    Nat.mul_le_mul_right _ hk
  unfold gap at hceil hmono
  rcases h5 with h5 | h5 | h5
  · exact h5
  · omega
  · omega

/-- C20. Glissando convergence: with `mode = 0`, rate `r` with `1 ≤ r ≤ 15`, a
fixed non-empty held set with target period `T` and any initial (16-bit)
output `p`, for every `k ≥ ceil (|T - p| / r)` the output `v` after `k` ticks
satisfies `|v - T| < r`, and `v = T` if and only if `r` divides `|T - p|`;
when `r` does not divide `|T - p|` the output never equals `T` and from then
on alternates between two values `a` and `a + r` with `a < T < a + r`. -/
theorem C20_glissando_convergence (inp : Nat → Nat) (s : State) (T : Nat)
    (hmode : s.mode = 0) (hr1 : 1 ≤ s.rate) (hr2 : s.rate ≤ 15)
    (hT : ∀ i, (heldPeriods (inp i)).getLast? = some T) (hw : s.TA0CCR0 < 65536) :
    (∀ k, (gap T s.TA0CCR0 + s.rate - 1) / s.rate ≤ k →
      ∃ v, outputAfter inp s k = some v ∧ v < T + s.rate ∧ T < v + s.rate ∧
        (v = T ↔ s.rate ∣ gap T s.TA0CCR0)) ∧
    (¬ s.rate ∣ gap T s.TA0CCR0 →
      (∀ k, outputAfter inp s k ≠ some T) ∧
      ∃ a, a < T ∧ T < a + s.rate ∧
        ∀ k, (gap T s.TA0CCR0 + s.rate - 1) / s.rate ≤ k →
          (outputAfter inp s k = some a ∧ outputAfter inp s (k + 1) = some (a + s.rate)) ∨
          (outputAfter inp s k = some (a + s.rate) ∧ outputAfter inp s (k + 1) = some a)) := by
  have hge := heldPeriods_ge _ T (List.mem_of_getLast?_eq_some (hT 0))
  constructor
  · intro k hk
    obtain ⟨m, hm, -, -, h3, -, h5, h6⟩ := gliss_near inp s T hmode hr1 hr2 hT hw k hk
    refine ⟨m.TA0CCR0, by simp [outputAfter, hm], h5, h6, ?_⟩
    rw [← mod_eq_iff_dvd_gap]
    constructor
    · intro hv
      rw [← hv]
      exact h3
    · intro hmod
      exact near_eq s.rate _ T (h3.trans hmod.symm) h5 h6
  · intro hnd
    have hne : ∀ k m, ticks inp k s = some m → m.TA0CCR0 % s.rate = s.TA0CCR0 % s.rate →
        m.TA0CCR0 ≠ T := by
      intro k m _ h3 hv
      apply hnd
      rw [← mod_eq_iff_dvd_gap, ← hv]
      exact h3
    constructor
    · intro k hout
      obtain ⟨m, hm, -, -, h3, -, -⟩ := gliss_track inp s T hmode hr1 hr2 hT hw k
      have hv : m.TA0CCR0 = T := by
        simpa [outputAfter, hm] using hout
      exact hne k m hm h3 hv
    · obtain ⟨m0, hm0, -, -, e3, -, e5, e6⟩ :=
        gliss_near inp s T hmode hr1 hr2 hT hw _ (Nat.le_refl _)
      have e0 := hne _ m0 hm0 e3
      -- the lower of the two values the output ends up alternating between
      obtain ⟨a, ha1, ha2, ha3⟩ : ∃ a, a < T ∧ T < a + s.rate ∧
          a % s.rate = s.TA0CCR0 % s.rate := by
        by_cases c : m0.TA0CCR0 < T
        · exact ⟨m0.TA0CCR0, c, e6, e3⟩
        · refine ⟨m0.TA0CCR0 - s.rate, by omega, by omega, ?_⟩
          rw [← Nat.mod_eq_sub_mod (by omega)]
          exact e3
      refine ⟨a, ha1, ha2, fun k hk => ?_⟩
      obtain ⟨m, hm, h1, h2, h3, h4, h5, h6⟩ := gliss_near inp s T hmode hr1 hr2 hT hw k hk
      have h0 := hne k m hm h3
      obtain ⟨m', hm', -, -, g3⟩ :=
        step_gliss_held inp k T s m hm h1 (hT k) (by omega) h4
      rw [h2] at g3
      by_cases c : m.TA0CCR0 < T
      · left
        have hva : m.TA0CCR0 = a :=
          near_eq s.rate _ a (h3.trans ha3.symm) (by omega) (by omega)
        rw [if_pos c, hva] at g3
        exact ⟨by simp [outputAfter, hm, hva], by simp [outputAfter, hm', g3]⟩
      · right
        have c2 : T < m.TA0CCR0 := by omega
        have hmod : (m.TA0CCR0 - s.rate) % s.rate = a % s.rate := by
          rw [← Nat.mod_eq_sub_mod (by omega)]
          exact h3.trans ha3.symm
        have hva : m.TA0CCR0 - s.rate = a :=
          near_eq s.rate _ a hmod (by omega) (by omega)
        rw [if_neg c, if_pos c2, hva] at g3
        have hv : m.TA0CCR0 = a + s.rate := by omega
        exact ⟨by simp [outputAfter, hm, hv], by simp [outputAfter, hm', g3]⟩

theorem C20_glissando_convergence_witness :
    outputAfter (fun _ => threeKeys) { demo with mode := 0 } 28 = some 1140 ∧
    outputAfter (fun _ => threeKeys) { demo with mode := 0 } 29 = some 1135 ∧
    outputAfter (fun _ => threeKeys) { demo with mode := 0 } 30 = some 1140 := by
  have h := C20_glissando_convergence (fun _ => threeKeys) { demo with mode := 0 } 1136 rfl
    (by decide) (by decide) (fun _ => (by decide : (heldPeriods threeKeys).getLast? = some 1136))
    (by decide)
  have hnd : ¬ ({ demo with mode := 0 } : State).rate ∣
      gap 1136 ({ demo with mode := 0 } : State).TA0CCR0 := by decide
  obtain ⟨-, a, ha1, ha2, halt⟩ := h.2 hnd
  have h28 : outputAfter (fun _ => threeKeys) { demo with mode := 0 } 28 = some 1140 := by
    decide
  have ha : a = 1135 := by
    rcases halt 28 (by decide) with ⟨h1, -⟩ | ⟨h1, -⟩
    · rw [h28] at h1
      have := Option.some.inj h1
      omega
    · rw [h28] at h1
      have := Option.some.inj h1
      have hr : ({ demo with mode := 0 } : State).rate = 5 := rfl
      omega
  subst ha
  have hr : ({ demo with mode := 0 } : State).rate = 5 := rfl
  rw [hr] at halt
  refine ⟨h28, ?_, ?_⟩
  · rcases halt 28 (by decide) with ⟨h1, -⟩ | ⟨-, h2⟩
    · rw [h28] at h1
      exact absurd (Option.some.inj h1) (by decide)
    · exact h2
  · rcases halt 29 (by decide) with ⟨-, h2⟩ | ⟨h1, h2⟩
    · exact h2
    · rcases halt 28 (by decide) with ⟨h3, -⟩ | ⟨-, h4⟩
      · rw [h28] at h3
        exact absurd (Option.some.inj h3) (by decide)
      · rw [h4] at h1
        exact absurd (Option.some.inj h1) (by decide)

end Synth
